import Mathlib

/-!
# pipe-flow-calculator: the lookup-and-compute engine of `main.go`

A shallow embedding of the core of `main.go` and the properties of it that the
specification states.

Modelling conventions.

* The finite `float64` values are an ordered field `α` (exact arithmetic, no
  rounding).  Every numeric function is polymorphic in `α`: at `α = ℚ` it is
  executable, at `α = ℝ` the constant `math.Pi` can be instantiated by `Real.pi`.
  `math.Pi` itself is a constant of Go's `math` package and is passed as the
  parameter `pi`.  The infinities and NaN, which `strconv.ParseFloat` returns for
  some texts, are values of `Float64 α`; a row whose diameter or pressure is one
  of them is written by the program, and the model records that fact
  (`RowOutcome.emittedNonFinite`) without computing its flows.
* A Go `string` holding well-formed UTF-8 text is a Lean `String` (its runes).
  Operations of the source that work on bytes (`strings.Index`,
  `strings.Contains`, indexing `s[i]`, slicing `s[a:b]`, `strconv.ParseFloat`)
  work on `bytes s`, the UTF-8 encoding, as lists of byte values.
* A run-time panic of the Go program (slice bounds out of range) is the value
  `none` / `RowOutcome.crashed`.
* `range velocityDB` visits the map in an order chosen by the Go runtime; the
  order is the explicit parameter `order`, a permutation of `velocityDB`.
-/

namespace PipeFlow

/-! ## Go standard library: strings, unicode, strconv -/

/-- UTF-8 encoding of one rune, as byte values. -/
def utf8EncodeRune (c : Char) : List Nat :=
  let n := c.toNat
  if n < 0x80 then [n]
  else if n < 0x800 then [0xC0 + n / 64, 0x80 + n % 64]
  else if n < 0x10000 then [0xE0 + n / 4096, 0x80 + n / 64 % 64, 0x80 + n % 64]
  else [0xF0 + n / 262144, 0x80 + n / 4096 % 64, 0x80 + n / 64 % 64, 0x80 + n % 64]

/-- The bytes of a Go string: the concatenated UTF-8 encodings of its runes. -/
def bytes (s : String) : List Nat := (s.data.map utf8EncodeRune).flatten

/-- Go's `unicode.IsSpace`: the Latin-1 spaces and the Unicode `White_Space` runes. -/
def isSpace (c : Char) : Bool :=
  let n := c.toNat
  (9 ≤ n && n ≤ 13) || n = 0x20 || n = 0x85 || n = 0xA0 || n = 0x1680 ||
  (0x2000 ≤ n && n ≤ 0x200A) || n = 0x2028 || n = 0x2029 || n = 0x202F ||
  n = 0x205F || n = 0x3000

/-- Go's `strings.TrimSpace`: drop the leading and the trailing white space. -/
def TrimSpace (s : String) : String :=
  ⟨((s.data.dropWhile isSpace).reverse.dropWhile isSpace).reverse⟩

/-- The lower-case mappings of Go's `unicode.CaseRanges`, as ranges
(Lo, Hi, stride, delta): the code points Lo, Lo + stride, ..., Hi have the lower
case form at distance delta.  The table holds all 1433 code points with a simple
lower-case mapping in the Unicode Character Database 14.0.0 (version 15.0.0
has the same case mappings); Go's alternating `UpperLower` ranges are the entries
with stride 2 and delta 1.  Of these code points, 25 change the UTF-8 length of the
rune, and two (U+0130, U+212A) map into ASCII. -/
def caseRanges : List (Nat × Nat × Nat × Int) :=
  [ (0x41, 0x5A, 1, 32), (0xC0, 0xD6, 1, 32), (0xD8, 0xDE, 1, 32), (0x100, 0x12E, 2, 1),
    (0x130, 0x130, 1, -199), (0x132, 0x136, 2, 1), (0x139, 0x147, 2, 1),
    (0x14A, 0x176, 2, 1), (0x178, 0x178, 1, -121), (0x179, 0x17D, 2, 1),
    (0x181, 0x181, 1, 210), (0x182, 0x184, 2, 1), (0x186, 0x186, 1, 206),
    (0x187, 0x187, 1, 1), (0x189, 0x18A, 1, 205), (0x18B, 0x18B, 1, 1),
    (0x18E, 0x18E, 1, 79), (0x18F, 0x18F, 1, 202), (0x190, 0x190, 1, 203),
    (0x191, 0x191, 1, 1), (0x193, 0x193, 1, 205), (0x194, 0x194, 1, 207),
    (0x196, 0x196, 1, 211), (0x197, 0x197, 1, 209), (0x198, 0x198, 1, 1),
    (0x19C, 0x19C, 1, 211), (0x19D, 0x19D, 1, 213), (0x19F, 0x19F, 1, 214),
    (0x1A0, 0x1A4, 2, 1), (0x1A6, 0x1A6, 1, 218), (0x1A7, 0x1A7, 1, 1),
    (0x1A9, 0x1A9, 1, 218), (0x1AC, 0x1AC, 1, 1), (0x1AE, 0x1AE, 1, 218),
    (0x1AF, 0x1AF, 1, 1), (0x1B1, 0x1B2, 1, 217), (0x1B3, 0x1B5, 2, 1),
    (0x1B7, 0x1B7, 1, 219), (0x1B8, 0x1B8, 1, 1), (0x1BC, 0x1BC, 1, 1),
    (0x1C4, 0x1C4, 1, 2), (0x1C5, 0x1C5, 1, 1), (0x1C7, 0x1C7, 1, 2),
    (0x1C8, 0x1C8, 1, 1), (0x1CA, 0x1CA, 1, 2), (0x1CB, 0x1DB, 2, 1),
    (0x1DE, 0x1EE, 2, 1), (0x1F1, 0x1F1, 1, 2), (0x1F2, 0x1F4, 2, 1),
    (0x1F6, 0x1F6, 1, -97), (0x1F7, 0x1F7, 1, -56), (0x1F8, 0x21E, 2, 1),
    (0x220, 0x220, 1, -130), (0x222, 0x232, 2, 1), (0x23A, 0x23A, 1, 10795),
    (0x23B, 0x23B, 1, 1), (0x23D, 0x23D, 1, -163), (0x23E, 0x23E, 1, 10792),
    (0x241, 0x241, 1, 1), (0x243, 0x243, 1, -195), (0x244, 0x244, 1, 69),
    (0x245, 0x245, 1, 71), (0x246, 0x24E, 2, 1), (0x370, 0x372, 2, 1),
    (0x376, 0x376, 1, 1), (0x37F, 0x37F, 1, 116), (0x386, 0x386, 1, 38),
    (0x388, 0x38A, 1, 37), (0x38C, 0x38C, 1, 64), (0x38E, 0x38F, 1, 63),
    (0x391, 0x3A1, 1, 32), (0x3A3, 0x3AB, 1, 32), (0x3CF, 0x3CF, 1, 8),
    (0x3D8, 0x3EE, 2, 1), (0x3F4, 0x3F4, 1, -60), (0x3F7, 0x3F7, 1, 1),
    (0x3F9, 0x3F9, 1, -7), (0x3FA, 0x3FA, 1, 1), (0x3FD, 0x3FF, 1, -130),
    (0x400, 0x40F, 1, 80), (0x410, 0x42F, 1, 32), (0x460, 0x480, 2, 1),
    (0x48A, 0x4BE, 2, 1), (0x4C0, 0x4C0, 1, 15), (0x4C1, 0x4CD, 2, 1),
    (0x4D0, 0x52E, 2, 1), (0x531, 0x556, 1, 48), (0x10A0, 0x10C5, 1, 7264),
    (0x10C7, 0x10C7, 1, 7264), (0x10CD, 0x10CD, 1, 7264), (0x13A0, 0x13EF, 1, 38864),
    (0x13F0, 0x13F5, 1, 8), (0x1C90, 0x1CBA, 1, -3008), (0x1CBD, 0x1CBF, 1, -3008),
    (0x1E00, 0x1E94, 2, 1), (0x1E9E, 0x1E9E, 1, -7615), (0x1EA0, 0x1EFE, 2, 1),
    (0x1F08, 0x1F0F, 1, -8), (0x1F18, 0x1F1D, 1, -8), (0x1F28, 0x1F2F, 1, -8),
    (0x1F38, 0x1F3F, 1, -8), (0x1F48, 0x1F4D, 1, -8), (0x1F59, 0x1F5F, 2, -8),
    (0x1F68, 0x1F6F, 1, -8), (0x1F88, 0x1F8F, 1, -8), (0x1F98, 0x1F9F, 1, -8),
    (0x1FA8, 0x1FAF, 1, -8), (0x1FB8, 0x1FB9, 1, -8), (0x1FBA, 0x1FBB, 1, -74),
    (0x1FBC, 0x1FBC, 1, -9), (0x1FC8, 0x1FCB, 1, -86), (0x1FCC, 0x1FCC, 1, -9),
    (0x1FD8, 0x1FD9, 1, -8), (0x1FDA, 0x1FDB, 1, -100), (0x1FE8, 0x1FE9, 1, -8),
    (0x1FEA, 0x1FEB, 1, -112), (0x1FEC, 0x1FEC, 1, -7), (0x1FF8, 0x1FF9, 1, -128),
    (0x1FFA, 0x1FFB, 1, -126), (0x1FFC, 0x1FFC, 1, -9), (0x2126, 0x2126, 1, -7517),
    (0x212A, 0x212A, 1, -8383), (0x212B, 0x212B, 1, -8262), (0x2132, 0x2132, 1, 28),
    (0x2160, 0x216F, 1, 16), (0x2183, 0x2183, 1, 1), (0x24B6, 0x24CF, 1, 26),
    (0x2C00, 0x2C2F, 1, 48), (0x2C60, 0x2C60, 1, 1), (0x2C62, 0x2C62, 1, -10743),
    (0x2C63, 0x2C63, 1, -3814), (0x2C64, 0x2C64, 1, -10727), (0x2C67, 0x2C6B, 2, 1),
    (0x2C6D, 0x2C6D, 1, -10780), (0x2C6E, 0x2C6E, 1, -10749),
    (0x2C6F, 0x2C6F, 1, -10783), (0x2C70, 0x2C70, 1, -10782), (0x2C72, 0x2C72, 1, 1),
    (0x2C75, 0x2C75, 1, 1), (0x2C7E, 0x2C7F, 1, -10815), (0x2C80, 0x2CE2, 2, 1),
    (0x2CEB, 0x2CED, 2, 1), (0x2CF2, 0x2CF2, 1, 1), (0xA640, 0xA66C, 2, 1),
    (0xA680, 0xA69A, 2, 1), (0xA722, 0xA72E, 2, 1), (0xA732, 0xA76E, 2, 1),
    (0xA779, 0xA77B, 2, 1), (0xA77D, 0xA77D, 1, -35332), (0xA77E, 0xA786, 2, 1),
    (0xA78B, 0xA78B, 1, 1), (0xA78D, 0xA78D, 1, -42280), (0xA790, 0xA792, 2, 1),
    (0xA796, 0xA7A8, 2, 1), (0xA7AA, 0xA7AA, 1, -42308), (0xA7AB, 0xA7AB, 1, -42319),
    (0xA7AC, 0xA7AC, 1, -42315), (0xA7AD, 0xA7AD, 1, -42305),
    (0xA7AE, 0xA7AE, 1, -42308), (0xA7B0, 0xA7B0, 1, -42258),
    (0xA7B1, 0xA7B1, 1, -42282), (0xA7B2, 0xA7B2, 1, -42261),
    (0xA7B3, 0xA7B3, 1, 928), (0xA7B4, 0xA7C2, 2, 1), (0xA7C4, 0xA7C4, 1, -48),
    (0xA7C5, 0xA7C5, 1, -42307), (0xA7C6, 0xA7C6, 1, -35384), (0xA7C7, 0xA7C9, 2, 1),
    (0xA7D0, 0xA7D0, 1, 1), (0xA7D6, 0xA7D8, 2, 1), (0xA7F5, 0xA7F5, 1, 1),
    (0xFF21, 0xFF3A, 1, 32), (0x10400, 0x10427, 1, 40), (0x104B0, 0x104D3, 1, 40),
    (0x10570, 0x1057A, 1, 39), (0x1057C, 0x1058A, 1, 39), (0x1058C, 0x10592, 1, 39),
    (0x10594, 0x10595, 1, 39), (0x10C80, 0x10CB2, 1, 64), (0x118A0, 0x118BF, 1, 32),
    (0x16E40, 0x16E5F, 1, 32), (0x1E900, 0x1E921, 1, 34) ]

/-- Code point of the lower-case form of the rune with code point `n`: the delta
of the range of `caseRanges` that holds `n` is added; other runes are unchanged. -/
def lowerCode (n : Nat) : Nat :=
  match caseRanges.find? (fun r => r.1 ≤ n && n ≤ r.2.1 && (n - r.1) % r.2.2.1 == 0) with
  | some r => ((n : Int) + r.2.2.2).toNat
  | none => n

/-- Go's `unicode.ToLower` on one rune. -/
def toLowerRune (c : Char) : Char := Char.ofNat (lowerCode c.toNat)

/-- Go's `strings.ToLower`: every rune mapped to its lower-case form. -/
def ToLower (s : String) : String := ⟨s.data.map toLowerRune⟩

/-- Go's `strings.Index` on bytes: the offset of the leftmost occurrence of `sub`
in `s`; `none` stands for the result `-1`. -/
def Index : List Nat → List Nat → Option Nat
  | [], sub => if sub = [] then some 0 else none
  | b :: s, sub => if sub.isPrefixOf (b :: s) then some 0 else (Index s sub).map (· + 1)

/-- Go's `strings.Contains`: `substr` occurs in `s`. -/
def Contains (s substr : String) : Bool := (Index (bytes s) (bytes substr)).isSome

/-- Worker of `ReplaceAll`; `fuel` bounds the number of steps by the length of the text. -/
def replaceAux (old new : List Char) : Nat → List Char → List Char
  | 0, s => s
  | _ + 1, [] => []
  | fuel + 1, c :: s =>
    if old.isPrefixOf (c :: s) then new ++ replaceAux old new fuel ((c :: s).drop old.length)
    else c :: replaceAux old new fuel s

/-- Go's `strings.ReplaceAll` for a non-empty `old`: the non-overlapping
occurrences of `old`, from the left, replaced by `new`. -/
def ReplaceAll (s old new : String) : String :=
  ⟨replaceAux old.data new.data s.data.length s.data⟩

/-- Go's slice expression `s[lo:hi]` on the bytes of a string; `none` is the
run-time panic "slice bounds out of range". -/
def slice (s : List Nat) (lo hi : Nat) : Option (List Nat) :=
  if lo ≤ hi ∧ hi ≤ s.length then some ((s.drop lo).take (hi - lo)) else none

/-- A non-finite `float64` value. -/
inductive NonFinite where
  /-- The value `+Inf`. -/
  | posInf : NonFinite
  /-- The value `-Inf`. -/
  | negInf : NonFinite
  /-- The value `NaN`. -/
  | nan : NonFinite
  deriving DecidableEq

/-- A `float64` value: a finite number, taken exactly in the ordered field `α`, or
one of the non-finite values.  The arithmetic of the program is modelled on the
finite values only. -/
inductive Float64 (α : Type) where
  /-- A finite value. -/
  | finite (x : α) : Float64 α
  /-- An infinity or NaN. -/
  | nonFinite (v : NonFinite) : Float64 α
  deriving DecidableEq

/-- The product of a `float64` value with a positive finite constant `c`: the
infinities and NaN are left as they are. -/
def Float64.scale {α : Type} [Mul α] (v : Float64 α) (c : α) : Float64 α :=
  match v with
  | .finite x => .finite (x * c)
  | .nonFinite w => .nonFinite w

/-- A byte is an ASCII decimal digit. -/
def isDigit (b : Nat) : Bool := 48 ≤ b && b ≤ 57

/-- A byte is a hexadecimal letter: `'a' <= lower(c) && lower(c) <= 'f'` with
`strconv`'s `lower(c) = c | 0x20`. -/
def isHexLetter (c : Nat) : Bool := (65 ≤ c && c ≤ 70) || (97 ≤ c && c ≤ 102)

/-- Value of a hexadecimal letter: `lower(c) - 'a' + 10`. -/
def hexLetterValue (c : Nat) : Nat := if c ≤ 70 then c - 55 else c - 87

/-- ASCII lower case of a byte, as in `strconv`'s `commonPrefixLenIgnoreCase`. -/
def asciiLowerByte (c : Nat) : Nat := if 65 ≤ c ∧ c ≤ 90 then c + 32 else c

/-- The function `commonPrefixLenIgnoreCase` of `strconv`: the length of the
longest common beginning of `s`, letter case ignored, and the lower-case `pat`. -/
def commonPrefixLenIgnoreCase : List Nat → List Nat → Nat
  | c :: s, p :: pat =>
    if asciiLowerByte c = p then commonPrefixLenIgnoreCase s pat + 1 else 0
  | _, _ => 0

/-- The case `'i', 'I'` of `strconv`'s `special`: the number of bytes of `s` read
as `inf` or `infinity`, when `s` starts with one of them. -/
def infinityLen (s : List Nat) : Option Nat :=
  let n := commonPrefixLenIgnoreCase s [105, 110, 102, 105, 110, 105, 116, 121]
  let m := if 3 < n ∧ n < 8 then 3 else n
  if m = 3 ∨ m = 8 then some m else none

/-- The function `special` of `strconv`: the non-finite value that `s` starts
with (`inf`, `infinity` with an optional sign, `nan` without a sign, in any letter
case) and the number of bytes read. -/
def special (s : List Nat) : Option (NonFinite × Nat) :=
  match s with
  | [] => none
  | c :: t =>
    if c = 43 then (infinityLen t).map (fun n => (NonFinite.posInf, 1 + n))
    else if c = 45 then (infinityLen t).map (fun n => (NonFinite.negInf, 1 + n))
    else if c = 105 ∨ c = 73 then (infinityLen (c :: t)).map (fun n => (NonFinite.posInf, n))
    else if c = 110 ∨ c = 78 then
      if commonPrefixLenIgnoreCase (c :: t) [110, 97, 110] = 3 then some (NonFinite.nan, 3)
      else none
    else none

/-- The digit loop of `strconv`'s `readFloat` for base 10 (`hex = false`) or 16:
it passes over `_`, reads digits and at most one point.  Returns the mantissa as an
integer (all digits, no truncation), the number of digits after the point, whether
a digit was seen, and the unread rest. -/
def readMantissa (hex : Bool) : List Nat → Nat → Bool → Nat → Bool →
    Nat × Nat × Bool × List Nat
  | [], mant, _, frac, sawdigits => (mant, frac, sawdigits, [])
  | c :: s, mant, sawdot, frac, sawdigits =>
    if c = 95 then readMantissa hex s mant sawdot frac sawdigits
    else if c = 46 then
      if sawdot then (mant, frac, sawdigits, c :: s)
      else readMantissa hex s mant true frac sawdigits
    else if isDigit c then
      readMantissa hex s (mant * (if hex then 16 else 10) + (c - 48)) sawdot
        (if sawdot then frac + 1 else frac) true
    else if hex && isHexLetter c then
      readMantissa hex s (mant * 16 + hexLetterValue c) sawdot
        (if sawdot then frac + 1 else frac) true
    else (mant, frac, sawdigits, c :: s)

/-- The exponent loop of `readFloat`: digits and `_` up to the end of the text;
the exponent stops growing once it has reached 10000. -/
def readExponentDigits : List Nat → Nat → Option Nat
  | [], e => some e
  | c :: s, e =>
    if c = 95 then readExponentDigits s e
    else if isDigit c then readExponentDigits s (if e < 10000 then e * 10 + (c - 48) else e)
    else none

/-- The exponent of a literal, read after the exponent letter: an optional sign,
then a digit, then digits and `_` up to the end of the text. -/
def readExponent (s : List Nat) : Option Int :=
  let signed : Bool × List Nat :=
    match s with
    | 43 :: t => (false, t)
    | 45 :: t => (true, t)
    | t => (false, t)
  match signed.2 with
  | [] => none
  | c :: _ =>
    if isDigit c then
      (readExponentDigits signed.2 0).map (fun e => if signed.1 then -(e : Int) else (e : Int))
    else none

/-- The function `readFloat` of `strconv` on a text that it has to read to the
end: optional sign, optional base prefix `0x`, digits with an optional point and
`_`, then the exponent (letter `e`, optional, for base 10; letter `p`, mandatory,
for base 16).  Returns (negative, mantissa, hexadecimal, exponent of the base 10 or
2). -/
def readFloat (s : List Nat) : Option (Bool × Nat × Bool × Int) :=
  let signed : Bool × List Nat :=
    match s with
    | 43 :: t => (false, t)
    | 45 :: t => (true, t)
    | t => (false, t)
  let hex : Bool :=
    match signed.2 with
    | 48 :: x :: _ :: _ => x = 120 || x = 88
    | _ => false
  match readMantissa hex (if hex then signed.2.drop 2 else signed.2) 0 false 0 false with
  | (mant, frac, sawdigits, rest) =>
    if sawdigits = false then none
    else
      match rest with
      | [] => if hex then none else some (signed.1, mant, false, -(frac : Int))
      | c :: u =>
        if hex then
          if c = 112 ∨ c = 80 then
            (readExponent u).map (fun e => (signed.1, mant, true, e - 4 * (frac : Int)))
          else none
        else if c = 101 ∨ c = 69 then
          (readExponent u).map (fun e => (signed.1, mant, false, e - (frac : Int)))
        else none

/-- The loop of `strconv`'s `underscoreOK`; `saw` is the last kind of byte seen:
`'^'` (94) at the start, `'0'` (48) a digit, `'_'` (95), `'!'` (33) another byte. -/
def underscoreScan (hex : Bool) : List Nat → Nat → Bool
  | [], saw => saw != 95
  | c :: s, saw =>
    if isDigit c || (hex && isHexLetter c) then underscoreScan hex s 48
    else if c = 95 then
      if saw != 48 then false else underscoreScan hex s 95
    else if saw = 95 then false
    else underscoreScan hex s 33

/-- The function `underscoreOK` of `strconv`: every `_` separates two digits, or
follows the base prefix and precedes a digit. -/
def underscoreOK (s : List Nat) : Bool :=
  let t : List Nat :=
    match s with
    | 45 :: u => u
    | 43 :: u => u
    | u => u
  match t with
  | 48 :: x :: u =>
    if x = 98 ∨ x = 66 ∨ x = 111 ∨ x = 79 ∨ x = 120 ∨ x = 88 then
      underscoreScan (x = 120 || x = 88) u 48
    else underscoreScan false t 94
  | _ => underscoreScan false t 94

/-- Exact value of a literal read by `readFloat`; `none` when the magnitude
rounds to an infinity, which `strconv.ParseFloat` reports as a range error. -/
def floatValue (r : Bool × Nat × Bool × Int) : Option ℚ :=
  let v : ℚ := (r.2.1 : ℚ) * (if r.2.2.1 then (2 : ℚ) else (10 : ℚ)) ^ r.2.2.2
  if (2 : ℚ) ^ 1024 - (2 : ℚ) ^ 970 ≤ v then none
  else some (if r.1 then -v else v)

/-- The finite numbers of `strconv.ParseFloat`: the text is a literal read to its
end by `readFloat`, its underscores are well placed, and the value is in range. -/
def parseNumber (s : List Nat) : Option ℚ :=
  if 95 ∈ s ∧ underscoreOK s = false then none
  else (readFloat s).bind floatValue

/-- Go's `strconv.ParseFloat(s, 64)` on the bytes of `s`: `none` is a non-nil
error, `some v` the value returned with a nil error, a finite number (exact,
unrounded) or, for the texts of `special`, an infinity or NaN. -/
def ParseFloat {α : Type} [LinearOrderedField α] (s : List Nat) : Option (Float64 α) :=
  match special s with
  | some (v, n) => if n = s.length then some (.nonFinite v) else none
  | none => (parseNumber s).map (fun (q : ℚ) => Float64.finite (q : α))

/-! ## The program -/

variable {α : Type} [LinearOrderedField α]

/-- An entry of `velocityDB` (lines 18-22). -/
structure VelocityEntry (α : Type) where
  min : α
  max : α
  category : String
  recommendation : String

/-- The reference table `velocityDB` (lines 18-47), as the list of its key/value
pairs in the order of the source text.  -/
def velocityDB : List (String × VelocityEntry α) :=
  [ ("自来水", ⟨1.0, 1.5, "水及水溶液", "防噪音要求≤1.2m/s"⟩),
    ("循环冷却水", ⟨2.0, 2.5, "水及水溶液", "防腐蚀需≤2.2m/s"⟩),
    ("盐水", ⟨1.2, 1.8, "水及水溶液", "制冷系统/化工流程，需考虑沸点升高效应"⟩),
    ("饱和蒸汽", ⟨20.0, 30.0, "蒸汽系统", "避免冷凝水携带（≤25m/s）"⟩),
    ("过热蒸汽", ⟨35.0, 50.0, "蒸汽系统", "管道振动控制"⟩),
    ("冷凝水回水", ⟨0.5, 1.2, "蒸汽系统", "防气蚀设计"⟩),
    ("压缩空气", ⟨10.0, 15.0, "气体介质", "气动工具管网，需设油水分离器"⟩),
    ("天然气", ⟨8.0, 12.0, "气体介质", "城市输配管网，含硫气体需降速20%"⟩),
    ("氧气", ⟨5.0, 8.0, "气体介质", "钢铁冶炼供气，禁油设计+流速下限控制"⟩),
    ("液氨", ⟨0.8, 1.5, "特殊流体", "保冷管道+防震支架"⟩),
    ("硫酸", ⟨0.6, 1.2, "特殊流体", "衬塑管道+低流速防结晶"⟩),
    ("泥浆", ⟨1.5, 2.0, "特殊流体", "流速需＞沉降临界值"⟩),
    ("乙二醇溶液", ⟨1.0, 2.5, "暖通专用", "ASHRAE标准"⟩),
    ("热水", ⟨0.3, 0.5, "暖通专用", "防气阻设计"⟩),
    ("高温烟气", ⟨8.0, 12.0, "暖通专用", "耐火材料内衬"⟩) ]

/-- The keys of `velocityDB`. -/
def velocityKeys : List String :=
  ["自来水", "循环冷却水", "盐水", "饱和蒸汽", "过热蒸汽", "冷凝水回水", "压缩空气", "天然气",
   "氧气", "液氨", "硫酸", "泥浆", "乙二醇溶液", "热水", "高温烟气"]

/-- `parseFloat` (lines 215-227): trim, reject the empty text, remove the unit
`mm` / `MM`, trim, `strconv.ParseFloat`. -/
def parseFloat (s : String) : Option (Float64 α) :=
  let s := TrimSpace s
  if s = "" then none
  else
    let s := ReplaceAll s "mm" ""
    let s := ReplaceAll s "MM" ""
    let s := TrimSpace s
    ParseFloat (bytes s)

/-- The loop condition of lines 238 and 251 on one byte: a digit, `.` or `-`. -/
def isPressureByte (b : Nat) : Bool := (48 ≤ b && b ≤ 57) || b = 46 || b = 45

/-- The backward scan of lines 237-240 and 250-253:
`for start > 0 && isPressureByte(lower[start-1]) { start-- }`, started at `start`. -/
def scanBack (lower : List Nat) : Nat → Nat
  | 0 => 0
  | start + 1 => if isPressureByte (lower.getD start 0) then scanBack lower start else start + 1

/-- What one of the two token blocks of `extractPressure` does. -/
inductive Attempt (α : Type) where
  /-- The block panics (slice bounds out of range). -/
  | panics : Attempt α
  /-- The block falls through to the code after it. -/
  | fallsThrough : Attempt α
  /-- The block parsed the value `val`. -/
  | parsed (val : Float64 α) : Attempt α

/-- The block of lines 235-246 (token `mpa`), which lines 249-259 repeat for the
token `bar`, up to the value `val` it parsed: `remarks` and `lower` are the bytes
of the remark and of its lower-cased copy. -/
def tokenAttempt (remarks lower token : List Nat) : Attempt α :=
  match Index lower token with
  | none => .fallsThrough
  | some idx =>
    if 0 < idx then
      let start := scanBack lower idx
      if start < idx then
        match slice remarks start idx with
        | none => .panics
        | some text =>
          match ParseFloat text with
          | some val => .parsed val
          | none => .fallsThrough
      else .fallsThrough
    else .fallsThrough

/-- `extractPressure` (lines 230-263); `none` when the Go function panics. -/
def extractPressure (remarks : String) : Option (Float64 α) :=
  let lowerRemarks := ToLower remarks
  match tokenAttempt (bytes remarks) (bytes lowerRemarks) (bytes "mpa") with
  | .panics => none
  | .parsed val => some val
  | .fallsThrough =>
    match tokenAttempt (bytes remarks) (bytes lowerRemarks) (bytes "bar") with
    | .panics => none
    | .parsed val => some (val.scale 0.1)
    | .fallsThrough => some (.finite 0.5)

/-- `calculateSteamDensity` (lines 266-274). -/
def calculateSteamDensity (pressureMPa : α) : α :=
  if pressureMPa < 0.32 then 5.2353 * pressureMPa + 0.0816
  else if pressureMPa < 1.00 then 5.0221 * pressureMPa + 0.1517
  else 4.9283 * pressureMPa + 0.2173

/-- `getApproximateDensity` (lines 277-296). -/
def getApproximateDensity (medium : String) : α :=
  if Contains medium "水" then 1000
  else if Contains medium "蒸汽" then 1
  else if Contains medium "空气" then 1.2
  else if Contains medium "氧气" then 1.43
  else if Contains medium "天然气" then 0.7
  else if Contains medium "氨" then 0.77
  else if Contains medium "硫酸" then 1840
  else 1000

/-- The triple returned for a table entry on lines 304 and 310: the midpoint of
the velocity range, the category and the recommendation. -/
def entryResult (v : VelocityEntry α) : α × String × String :=
  ((v.min + v.max) / 2, v.category, v.recommendation)

/-- The fuzzy-match condition of line 309 for the trimmed medium and a key. -/
def fuzzyMatch (medium key : String) : Bool := Contains medium key || Contains key medium

/-- `getRecommendedVelocity` (lines 299-315).  `order` is the order in which
`range velocityDB` visits the table during this call. -/
def getRecommendedVelocity (order : List (String × VelocityEntry α)) (medium : String) :
    α × String × String :=
  let medium := TrimSpace medium
  match velocityDB.lookup medium with
  | some v => entryResult v
  | none =>
    match order.find? (fun kv => fuzzyMatch medium kv.1) with
    | some kv => entryResult kv.2
    | none => (1.5, "未知", "请根据实际情况确定流速")

/-- `calculateVolumeFlowRate` (lines 318-323); `pi` is `math.Pi`. -/
def calculateVolumeFlowRate (pi diameterMM velocity : α) : α :=
  let diameterM := diameterMM / 1000.0
  let area := pi * (diameterM / 2) * (diameterM / 2)
  let flowMS := area * velocity
  flowMS * 3600

/-- The values written to one output row (lines 179-187), before formatting. -/
structure ResultRecord (α : Type) where
  pipeDiameter : α
  medium : String
  remarks : String
  pressure : α
  velocity : α
  volumeFlowRate : α
  massFlowRate : α
  category : String
  recommendation : String

/-- What the loop body of `main` does with one row. -/
inductive RowOutcome (α : Type) where
  /-- The row is left out (`continue`). -/
  | skipped : RowOutcome α
  /-- The row is written to the output sheet, all its numbers being finite. -/
  | emitted (r : ResultRecord α) : RowOutcome α
  /-- The row is written to the output sheet with the diameter or the pressure an
  infinity or NaN; its flows are not computed by the model. -/
  | emittedNonFinite (diameter pressure : Float64 α) : RowOutcome α
  /-- The program panics while processing the row. -/
  | crashed : RowOutcome α

/-- The body of the row loop of `main` (lines 146-189). -/
def processRow (pi : α) (order : List (String × VelocityEntry α)) :
    List String → RowOutcome α
  | c0 :: c1 :: c2 :: _ =>
    let pipeDiameterStr := TrimSpace c0
    let medium := TrimSpace c1
    let remarks := TrimSpace c2
    match (parseFloat pipeDiameterStr : Option (Float64 α)) with
    | none => .skipped
    | some diameter =>
      match (extractPressure remarks : Option (Float64 α)) with
      | none => .crashed
      | some extracted =>
        match diameter, extracted with
        | .finite pipeDiameter, .finite pressure =>
          let vcr := getRecommendedVelocity order medium
          let volumeFlowRate := calculateVolumeFlowRate pi pipeDiameter vcr.1
          let massFlowRate :=
            if Contains medium "蒸汽" then volumeFlowRate * calculateSteamDensity pressure / 1000
            else volumeFlowRate * getApproximateDensity medium / 1000
          .emitted
            { pipeDiameter := pipeDiameter, medium := medium, remarks := remarks,
              pressure := pressure, velocity := vcr.1, volumeFlowRate := volumeFlowRate,
              massFlowRate := massFlowRate, category := vcr.2.1, recommendation := vcr.2.2 }
        | _, _ => .emittedNonFinite diameter extracted
  | _ => .skipped

/-- Header detection of `main` (lines 119-128): the index of the first row processed. -/
def startRow (rows : List (List String)) : Nat :=
  match rows with
  | firstRow :: _ =>
    if 3 ≤ firstRow.length ∧
        (Contains (ToLower (firstRow.getD 0 "")) "管径" ∨
          Contains (ToLower (firstRow.getD 0 "")) "diameter") then 1
    else 0
  | [] => 0

/-- The row loop of `main` (lines 144-190) over the rows from index `i` on:
the outcomes of the rows written (`emitted` or `emittedNonFinite`), in order;
`none` when the program panics.  `orderAt i` is the iteration order of
`velocityDB` while row `i` is processed. -/
def processFrom (pi : α) (orderAt : Nat → List (String × VelocityEntry α)) :
    Nat → List (List String) → Option (List (RowOutcome α))
  | _, [] => some []
  | i, row :: rest =>
    match processRow pi (orderAt i) row with
    | .crashed => none
    | .skipped => processFrom pi orderAt (i + 1) rest
    | .emitted r =>
      (processFrom pi orderAt (i + 1) rest).map (fun rs => RowOutcome.emitted r :: rs)
    | .emittedNonFinite d p =>
      (processFrom pi orderAt (i + 1) rest).map
        (fun rs => RowOutcome.emittedNonFinite d p :: rs)

/-- The records `main` writes for the input `rows`: the row loop started at
`startRow` (`main` stops before the loop when there is no row at all). -/
def processRows (pi : α) (orderAt : Nat → List (String × VelocityEntry α))
    (rows : List (List String)) : Option (List (RowOutcome α)) :=
  processFrom pi orderAt (startRow rows) (rows.drop (startRow rows))

/-! ## Notions of the specification -/

/-- A row the loop does not skip: it has at least 3 cells and its first cell,
trimmed, is parsed by `parseFloat` without an error. -/
def validRow (α : Type) [LinearOrderedField α] (row : List String) : Bool :=
  match row with
  | c0 :: _ :: _ :: _ => (parseFloat (TrimSpace c0) : Option (Float64 α)).isSome
  | _ => false

/-- The call `extractPressure(remarks)` of line 161 returns for this row, that
is, it does not panic (rows with fewer than 3 cells have no such call). -/
def remarkReturns (α : Type) [LinearOrderedField α] (row : List String) : Bool :=
  match row with
  | _ :: _ :: c2 :: _ => (extractPressure (TrimSpace c2) : Option (Float64 α)).isSome
  | _ => true

/-- The first and the last rune of a text are no white space (the text is not empty). -/
def tight (k : String) : Bool :=
  match k.data.head?, k.data.getLast? with
  | some a, some b => !isSpace a && !isSpace b
  | _, _ => false

/-- A rune is a digit, `.` or `-`: its byte passes the test of the backward scan. -/
def isPressureChar (c : Char) : Bool := isPressureByte c.toNat

/-- Lower-casing keeps the number of bytes of the rune. -/
def keepsWidth (c : Char) : Bool :=
  (utf8EncodeRune (toLowerRune c)).length = (utf8EncodeRune c).length

/-- The situation of claims C8 and C9 for a token (`mpa` or `bar`): the remark is
`P ++ R ++ rest`, the leftmost occurrence of the token in the lower-cased remark
starts right after `P ++ R`, lower-casing preserves the byte positions in `P`,
and `R` is the maximal non-empty run of digits, `.` and `-` before the token. -/
structure TokenRun (token remarks P R : String) : Prop where
  /-- The remark starts with `P` followed by `R`. -/
  split : ∃ rest : String, remarks = P ++ R ++ rest
  /-- The leftmost occurrence of the token, in any letter case, is right after `R`. -/
  leftmost : Index (bytes (ToLower remarks)) (bytes token) =
    some (bytes (ToLower (P ++ R))).length
  /-- Lower-casing preserves the byte positions in `P`. -/
  width : ∀ c ∈ P.data, keepsWidth c = true
  /-- The run is not empty. -/
  nonempty : R ≠ ""
  /-- The run consists of digits, `.` and `-`. -/
  run : ∀ c ∈ R.data, isPressureChar c = true
  /-- The run is maximal: no such character precedes it. -/
  maximal : ∀ c ∈ P.data.getLast?, isPressureChar c = false

/-- A token yields no valid number, in the four ways claim C9 lists: it is absent
from the lower-cased remark, its leftmost occurrence is at index 0, no digit, `.`
or `-` stands right before it, or the run before it does not parse. -/
def TokenFails (α : Type) [LinearOrderedField α] (token remarks : String) : Prop :=
  Index (bytes (ToLower remarks)) (bytes token) = none ∨
  Index (bytes (ToLower remarks)) (bytes token) = some 0 ∨
  (∃ i, Index (bytes (ToLower remarks)) (bytes token) = some (i + 1) ∧
    isPressureByte ((bytes (ToLower remarks)).getD i 0) = false) ∨
  (∃ P R, TokenRun token remarks P R ∧ (ParseFloat (bytes R) : Option (Float64 α)) = none)

/-- The substring checks of the specification's density table, in priority
order, each with its constant (kg/m³). -/
def densityTable : List (String × α) :=
  [("水", 1000), ("蒸汽", 1), ("空气", 1.2), ("氧气", 1.43), ("天然气", 0.7), ("氨", 0.77),
    ("硫酸", 1840)]

/-- The header test of the specification on the first cell: its lower-cased
form contains "管径" or "diameter". -/
def isHeaderCell (cell : String) : Bool :=
  Contains (ToLower cell) "管径" || Contains (ToLower cell) "diameter"

/-! ## Evaluation lemmas -/

theorem ParseFloat_of_readFloat (s : List Nat) (r : Bool × Nat × Bool × Int) (q : ℚ)
    (hr : (special s).isNone = true ∧ ¬ (95 ∈ s ∧ underscoreOK s = false) ∧
      readFloat s = some r)
    (hq : floatValue r = some q) :
    (ParseFloat s : Option (Float64 α)) = some (.finite (q : α)) := by
  obtain ⟨h1, h2, h3⟩ := hr
  have h1' : special s = none := Option.isNone_iff_eq_none.1 h1
  simp only [ParseFloat, h1', parseNumber, if_neg h2, h3, Option.some_bind, hq,
    Option.map_some']

theorem ParseFloat_of_readFloat_none (s : List Nat)
    (hr : (special s).isNone = true ∧ readFloat s = none) :
    (ParseFloat s : Option (Float64 α)) = none := by
  obtain ⟨h1, h3⟩ := hr
  have h1' : special s = none := Option.isNone_iff_eq_none.1 h1
  simp only [ParseFloat, h1', parseNumber, h3]
  split_ifs <;> rfl

theorem parseFloat_of_readFloat (s : String) (r : Bool × Nat × Bool × Int) (q : ℚ)
    (hs : TrimSpace s ≠ "")
    (hr : (special
          (bytes (TrimSpace (ReplaceAll (ReplaceAll (TrimSpace s) "mm" "") "MM" "")))).isNone
        = true ∧
      ¬ (95 ∈ bytes (TrimSpace (ReplaceAll (ReplaceAll (TrimSpace s) "mm" "") "MM" "")) ∧
        underscoreOK
          (bytes (TrimSpace (ReplaceAll (ReplaceAll (TrimSpace s) "mm" "") "MM" ""))) = false) ∧
      readFloat (bytes (TrimSpace (ReplaceAll (ReplaceAll (TrimSpace s) "mm" "") "MM" "")))
        = some r)
    (hq : floatValue r = some q) :
    (parseFloat s : Option (Float64 α)) = some (.finite (q : α)) := by
  unfold parseFloat
  simp only [hs, if_false]
  exact ParseFloat_of_readFloat _ r q hr hq

theorem parseFloat_of_readFloat_none (s : String)
    (hr : (special
          (bytes (TrimSpace (ReplaceAll (ReplaceAll (TrimSpace s) "mm" "") "MM" "")))).isNone
        = true ∧
      readFloat (bytes (TrimSpace (ReplaceAll (ReplaceAll (TrimSpace s) "mm" "") "MM" "")))
        = none) :
    (parseFloat s : Option (Float64 α)) = none := by
  simp only [parseFloat]
  split_ifs
  · rfl
  · exact ParseFloat_of_readFloat_none _ hr

theorem parseFloat_of_special (s : String) (v : NonFinite)
    (hs : TrimSpace s ≠ "")
    (hr : special (bytes (TrimSpace (ReplaceAll (ReplaceAll (TrimSpace s) "mm" "") "MM" "")))
      = some (v,
        (bytes (TrimSpace (ReplaceAll (ReplaceAll (TrimSpace s) "mm" "") "MM" ""))).length)) :
    (parseFloat s : Option (Float64 α)) = some (.nonFinite v) := by
  unfold parseFloat
  simp only [hs, if_false, ParseFloat, hr, if_true]

theorem calculateVolumeFlowRate_eq (pi d v : α) :
    calculateVolumeFlowRate pi d v = pi * (d / 2000) ^ 2 * v * 3600 := by
  have h : (1000.0 : α) = 1000 := by norm_num
  simp only [calculateVolumeFlowRate, h]
  ring

theorem extractPressure_of_absent (remarks : String)
    (hm : Index (bytes (ToLower remarks)) (bytes "mpa") = none)
    (hb : Index (bytes (ToLower remarks)) (bytes "bar") = none) :
    (extractPressure remarks : Option (Float64 α)) = some (.finite 0.5) := by
  simp [extractPressure, tokenAttempt, hm, hb]

/-! ## The row processor -/

theorem processRow_emitted (pi : α) (order : List (String × VelocityEntry α))
    (c0 c1 c2 : String) (more : List String) (d p : α)
    (hd : parseFloat (TrimSpace c0) = some (.finite d))
    (hp : extractPressure (TrimSpace c2) = some (.finite p)) :
    processRow pi order (c0 :: c1 :: c2 :: more) =
      .emitted
        { pipeDiameter := d
          medium := TrimSpace c1
          remarks := TrimSpace c2
          pressure := p
          velocity := (getRecommendedVelocity order (TrimSpace c1)).1
          volumeFlowRate :=
            calculateVolumeFlowRate pi d (getRecommendedVelocity order (TrimSpace c1)).1
          massFlowRate :=
            calculateVolumeFlowRate pi d (getRecommendedVelocity order (TrimSpace c1)).1 *
              (if Contains (TrimSpace c1) "蒸汽" then calculateSteamDensity p
                else getApproximateDensity (TrimSpace c1)) / 1000
          category := (getRecommendedVelocity order (TrimSpace c1)).2.1
          recommendation := (getRecommendedVelocity order (TrimSpace c1)).2.2 } := by
  simp only [processRow, hd, hp]
  split_ifs <;> rfl

theorem processRow_skipped_iff (pi : α) (order : List (String × VelocityEntry α))
    (row : List String) :
    processRow pi order row = .skipped ↔ validRow α row = false := by
  match row with
  | [] => simp [processRow, validRow]
  | [_] => simp [processRow, validRow]
  | [_, _] => simp [processRow, validRow]
  | c0 :: c1 :: c2 :: more =>
    simp only [processRow, validRow]
    cases hd : (parseFloat (TrimSpace c0) : Option (Float64 α)) with
    | none => simp
    | some d =>
      cases hp : (extractPressure (TrimSpace c2) : Option (Float64 α)) with
      | none => simp
      | some p => cases d <;> cases p <;> simp

theorem processRow_crashed_iff (pi : α) (order : List (String × VelocityEntry α))
    (row : List String) :
    processRow pi order row = .crashed ↔
      (validRow α row = true ∧ remarkReturns α row = false) := by
  match row with
  | [] => simp [processRow, validRow]
  | [_] => simp [processRow, validRow]
  | [_, _] => simp [processRow, validRow]
  | c0 :: c1 :: c2 :: more =>
    simp only [processRow, validRow, remarkReturns]
    cases hd : (parseFloat (TrimSpace c0) : Option (Float64 α)) with
    | none => simp
    | some d =>
      cases hp : (extractPressure (TrimSpace c2) : Option (Float64 α)) with
      | none => simp
      | some p => cases d <;> cases p <;> simp

theorem length_filter_enumFrom (f : List String → Bool) (l : List (List String)) (i : Nat) :
    ((l.enumFrom i).filter (fun p => f p.2)).length = l.countP f := by
  induction l generalizing i with
  | nil => rfl
  | cons row rest ih =>
    simp only [List.enumFrom_cons, List.filter_cons, List.countP_cons]
    cases h : f row <;> simp [ih]

theorem processFrom_records (pi : α) (orderAt : Nat → List (String × VelocityEntry α))
    (l : List (List String)) (i : Nat)
    (hret : ∀ row ∈ l, validRow α row = true → remarkReturns α row = true) :
    ∃ outs, processFrom pi orderAt i l = some outs ∧
      List.Forall₂ (fun (p : Nat × List String) o =>
          processRow pi (orderAt p.1) p.2 = o ∧ o ≠ .skipped ∧ o ≠ .crashed)
        ((l.enumFrom i).filter (fun p => validRow α p.2)) outs := by
  induction l generalizing i with
  | nil => exact ⟨[], rfl, by simp⟩
  | cons row rest ih =>
    obtain ⟨outs, houts, hall⟩ :=
      ih (i + 1) (fun r hr => hret r (List.mem_cons_of_mem _ hr))
    cases hv : validRow α row with
    | false =>
      refine ⟨outs, ?_, ?_⟩
      · simp only [processFrom, (processRow_skipped_iff pi (orderAt i) row).2 hv, houts]
      · simpa [List.enumFrom_cons, List.filter_cons, hv] using hall
    | true =>
      have hret' := hret row (List.mem_cons_self _ _) hv
      cases ho : processRow pi (orderAt i) row with
      | skipped =>
        rw [(processRow_skipped_iff pi (orderAt i) row).1 ho] at hv
        exact Bool.noConfusion hv
      | crashed =>
        rw [((processRow_crashed_iff pi (orderAt i) row).1 ho).2] at hret'
        exact Bool.noConfusion hret'
      | emitted r =>
        refine ⟨.emitted r :: outs, ?_, ?_⟩
        · simp only [processFrom, ho, houts, Option.map_some']
        · simpa [List.enumFrom_cons, List.filter_cons, hv] using ⟨ho, hall⟩
      | emittedNonFinite d p =>
        refine ⟨.emittedNonFinite d p :: outs, ?_, ?_⟩
        · simp only [processFrom, ho, houts, Option.map_some']
        · simpa [List.enumFrom_cons, List.filter_cons, hv] using ⟨ho, hall⟩

/-! ## The medium resolver -/

theorem dropWhile_append_of_all (p : Char → Bool) (ws l : List Char)
    (hws : ∀ c ∈ ws, p c = true) : (ws ++ l).dropWhile p = l.dropWhile p := by
  induction ws with
  | nil => rfl
  | cons c ws ih =>
    have hc : p c = true := hws c (List.mem_cons_self _ _)
    simp only [List.cons_append, List.dropWhile_cons, hc, if_true]
    exact ih (fun d hd => hws d (List.mem_cons_of_mem _ hd))

theorem dropWhile_of_head (p : Char → Bool) (l : List Char)
    (h : ∀ c, l.head? = some c → p c = false) : l.dropWhile p = l := by
  cases l with
  | nil => rfl
  | cons c l => simp [List.dropWhile_cons, h c rfl]

/-- A text without white space at either end, with white space put around it,
is trimmed back to itself. -/
theorem TrimSpace_pad (ws1 k ws2 : String)
    (h1 : ∀ c ∈ ws1.data, isSpace c = true) (h2 : ∀ c ∈ ws2.data, isSpace c = true)
    (hfirst : ∀ c, k.data.head? = some c → isSpace c = false)
    (hlast : ∀ c, k.data.getLast? = some c → isSpace c = false) :
    TrimSpace (ws1 ++ k ++ ws2) = k := by
  cases k with
  | mk kd =>
    simp only [TrimSpace, String.data_append, List.append_assoc] at *
    congr 1
    rw [dropWhile_append_of_all isSpace ws1.data _ h1]
    cases kd with
    | nil =>
      rw [List.nil_append]
      have hall : ws2.data.dropWhile isSpace = [] := by
        rw [List.dropWhile_eq_nil_iff]
        exact h2
      simp [hall]
    | cons c kd =>
      have hc : isSpace c = false := hfirst c rfl
      rw [List.cons_append, List.dropWhile_cons, hc]
      simp only [Bool.false_eq_true, if_false]
      rw [← List.cons_append, List.reverse_append,
        dropWhile_append_of_all isSpace ws2.data.reverse _
          (fun d hd => h2 d (List.mem_reverse.1 hd)),
        dropWhile_of_head isSpace _ (by
          intro d hd
          rw [List.head?_reverse] at hd
          exact hlast d hd), List.reverse_reverse]

theorem TrimSpace_pad_of_tight (ws1 k ws2 : String)
    (h1 : ∀ c ∈ ws1.data, isSpace c = true) (h2 : ∀ c ∈ ws2.data, isSpace c = true)
    (hk : tight k = true) : TrimSpace (ws1 ++ k ++ ws2) = k := by
  apply TrimSpace_pad ws1 k ws2 h1 h2
  · intro c hc
    unfold tight at hk
    rw [hc] at hk
    cases hl : k.data.getLast? with
    | none => simp [hl] at hk
    | some b => simp [hl] at hk; exact hk.1
  · intro c hc
    unfold tight at hk
    rw [hc] at hk
    cases hl : k.data.head? with
    | none => simp [hl] at hk
    | some b => simp [hl] at hk; exact hk.2

theorem velocityKeys_tight : velocityKeys.all tight = true := by decide

theorem map_fst_velocityDB : (velocityDB (α := α)).map Prod.fst = velocityKeys := rfl

theorem velocityKeys_nodup : velocityKeys.Nodup := by decide

theorem lookup_of_mem_of_nodup {β : Type} (l : List (String × β)) (k : String) (v : β)
    (hn : (l.map Prod.fst).Nodup) (h : (k, v) ∈ l) : l.lookup k = some v := by
  induction l with
  | nil => simp at h
  | cons kv l ih =>
    obtain ⟨k2, v2⟩ := kv
    simp only [List.map_cons, List.nodup_cons] at hn
    simp only [List.mem_cons, Prod.mk.injEq] at h
    rcases h with ⟨rfl, rfl⟩ | h
    · simp [List.lookup]
    · have hne : k ≠ k2 := by
        rintro rfl
        exact hn.1 (List.mem_map.2 ⟨(k, v), h, rfl⟩)
      simp only [List.lookup]
      have hb : (k == k2) = false := by simpa using hne
      rw [hb]
      exact ih hn.2 h

theorem mem_of_lookup {β : Type} (l : List (String × β)) (k : String) (v : β)
    (h : l.lookup k = some v) : (k, v) ∈ l := by
  induction l with
  | nil => simp [List.lookup] at h
  | cons kv l ih =>
    obtain ⟨k2, v2⟩ := kv
    simp only [List.lookup] at h
    cases hb : (k == k2) with
    | true =>
      rw [hb] at h
      have hk : k = k2 := by simpa using hb
      simp only [Option.some.injEq] at h
      subst hk; subst h
      exact List.mem_cons_self _ _
    | false =>
      rw [hb] at h
      exact List.mem_cons_of_mem _ (ih h)

theorem lookup_velocityDB_of_mem (k : String) (e : VelocityEntry α)
    (h : (k, e) ∈ velocityDB) : (velocityDB (α := α)).lookup k = some e :=
  lookup_of_mem_of_nodup _ k e (by rw [map_fst_velocityDB]; exact velocityKeys_nodup) h

theorem key_mem_of_mem (kv : String × VelocityEntry α) (h : kv ∈ velocityDB) :
    kv.1 ∈ velocityKeys := by
  rw [← map_fst_velocityDB (α := α)]
  exact List.mem_map.2 ⟨kv, h, rfl⟩

theorem isPrefixOf_self (l : List Nat) : l.isPrefixOf l = true := by
  induction l with
  | nil => rfl
  | cons b l ih => simp [List.isPrefixOf, ih]

theorem Index_self (l : List Nat) : Index l l = some 0 := by
  cases l with
  | nil => simp [Index]
  | cons b l => simp [Index, isPrefixOf_self]

theorem Contains_self (s : String) : Contains s s = true := by
  simp [Contains, Index_self]

theorem getRecommendedVelocity_exact (order : List (String × VelocityEntry α))
    (medium : String) (e : VelocityEntry α) (h : (TrimSpace medium, e) ∈ velocityDB) :
    getRecommendedVelocity order medium = entryResult e := by
  simp only [getRecommendedVelocity, lookup_velocityDB_of_mem _ e h]

theorem getRecommendedVelocity_fuzzy (order : List (String × VelocityEntry α))
    (medium : String) (h : TrimSpace medium ∉ velocityKeys) :
    getRecommendedVelocity order medium =
      match order.find? (fun kv => fuzzyMatch (TrimSpace medium) kv.1) with
      | some kv => entryResult kv.2
      | none => (1.5, "未知", "请根据实际情况确定流速") := by
  have hl : (velocityDB (α := α)).lookup (TrimSpace medium) = none := by
    cases hc : (velocityDB (α := α)).lookup (TrimSpace medium) with
    | none => rfl
    | some v => exact absurd (key_mem_of_mem _ (mem_of_lookup _ _ _ hc)) h
  simp only [getRecommendedVelocity, hl]

/-! ## The remark parser -/

theorem bytes_append (a b : String) : bytes (a ++ b) = bytes a ++ bytes b := by
  simp [bytes, String.data_append]

theorem ToLower_append (a b : String) : ToLower (a ++ b) = ToLower a ++ ToLower b := by
  apply String.ext
  simp [ToLower, String.data_append]

theorem utf8EncodeRune_ne_nil (c : Char) : utf8EncodeRune c ≠ [] := by
  unfold utf8EncodeRune
  simp only
  split_ifs <;> simp

theorem pressure_cases (n : Nat) (h : isPressureByte n = true) :
    (48 ≤ n ∧ n ≤ 57) ∨ n = 46 ∨ n = 45 := by
  unfold isPressureByte at h
  simp only [Bool.or_eq_true, Bool.and_eq_true, decide_eq_true_eq] at h
  omega

set_option maxRecDepth 100000 in
theorem caseRanges_lo :
    ∀ r ∈ caseRanges, 65 ≤ r.1 ∧ 97 ≤ (r.1 : Int) + r.2.2.2 := by decide

theorem lowerCode_of_lt (n : Nat) (h : n < 65) : lowerCode n = n := by
  have hnone : caseRanges.find?
      (fun r => r.1 ≤ n && n ≤ r.2.1 && (n - r.1) % r.2.2.1 == 0) = none := by
    rw [List.find?_eq_none]
    intro r hr
    have := (caseRanges_lo r hr).1
    simp only [Bool.and_eq_true, decide_eq_true_eq, not_and]
    omega
  simp only [lowerCode, hnone]

theorem lowerCode_eq_or_ge (n : Nat) : lowerCode n = n ∨ 97 ≤ lowerCode n := by
  unfold lowerCode
  cases hf : caseRanges.find?
      (fun r => r.1 ≤ n && n ≤ r.2.1 && (n - r.1) % r.2.2.1 == 0) with
  | none => exact Or.inl rfl
  | some r =>
    right
    have hmem := List.mem_of_find?_eq_some hf
    have hp := List.find?_some hf
    simp only [Bool.and_eq_true, decide_eq_true_eq] at hp
    have := (caseRanges_lo r hmem).2
    have h1 := hp.1.1
    simp only
    omega

theorem lowerCode_of_pressure (n : Nat) (h : isPressureByte n = true) : lowerCode n = n :=
  lowerCode_of_lt n (by have := pressure_cases n h; omega)

theorem pressure_of_lowerCode (n : Nat) (h : isPressureByte (lowerCode n) = true) :
    isPressureByte n = true := by
  have h2 := pressure_cases _ h
  rcases lowerCode_eq_or_ge n with h3 | h3
  · rwa [h3] at h
  · omega

theorem toNat_ofNat_cases (k : Nat) : (Char.ofNat k).toNat = k ∨ (Char.ofNat k).toNat = 0 := by
  by_cases h : k.isValidChar
  · left
    simp only [Char.ofNat, h, dite_true]
    rfl
  · right
    simp only [Char.ofNat, h, dite_false]
    rfl

theorem toLowerRune_of_pressure (c : Char) (h : isPressureChar c = true) :
    toLowerRune c = c := by
  unfold toLowerRune
  rw [lowerCode_of_pressure _ h, Char.ofNat_toNat]

theorem pressure_of_toLowerRune (c : Char) (h : isPressureChar (toLowerRune c) = true) :
    isPressureChar c = true := by
  unfold isPressureChar toLowerRune at *
  rcases toNat_ofNat_cases (lowerCode c.toNat) with h1 | h1
  · rw [h1] at h
    exact pressure_of_lowerCode _ h
  · rw [h1] at h
    exact absurd h (by decide)

theorem utf8EncodeRune_of_pressure (c : Char) (h : isPressureChar c = true) :
    utf8EncodeRune c = [c.toNat] := by
  have hlt : c.toNat < 0x80 := by
    have := pressure_cases _ h
    omega
  simp [utf8EncodeRune, hlt]

/-- The last byte of the encoding of a rune passes the scan test only for a
digit, `.` or `-`. -/
theorem getLast?_utf8EncodeRune (c : Char) (b : Nat)
    (hb : (utf8EncodeRune c).getLast? = some b) (hp : isPressureByte b = true) :
    isPressureChar c = true := by
  have hp2 := pressure_cases b hp
  unfold utf8EncodeRune at hb
  simp only at hb
  split_ifs at hb with h1 h2 h3
  · simp only [List.getLast?_singleton, Option.some.injEq] at hb
    subst hb
    exact hp
  all_goals
    simp only [List.getLast?_cons_cons, List.getLast?_singleton, Option.some.injEq] at hb
    omega

theorem bytes_of_run (R : List Char) (h : ∀ c ∈ R, isPressureChar c = true) :
    (R.map utf8EncodeRune).flatten = R.map Char.toNat := by
  induction R with
  | nil => rfl
  | cons c R ih =>
    simp only [List.map_cons, List.flatten_cons,
      utf8EncodeRune_of_pressure c (h c (List.mem_cons_self _ _)),
      ih (fun d hd => h d (List.mem_cons_of_mem _ hd))]
    rfl

theorem ToLower_of_run (R : String) (h : ∀ c ∈ R.data, isPressureChar c = true) :
    ToLower R = R := by
  apply String.ext
  simp only [ToLower]
  conv_rhs => rw [← List.map_id R.data]
  apply List.map_congr_left
  intro c hc
  exact toLowerRune_of_pressure c (h c hc)

theorem bytes_run_pressure (R : String) (h : ∀ c ∈ R.data, isPressureChar c = true) :
    ∀ b ∈ bytes R, isPressureByte b = true := by
  intro b hb
  rw [bytes, bytes_of_run _ h, List.mem_map] at hb
  obtain ⟨c, hc, rfl⟩ := hb
  exact h c hc

theorem bytes_ne_nil (R : String) (h : R ≠ "") : bytes R ≠ [] := by
  cases R with
  | mk d =>
    cases d with
    | nil => exact absurd rfl h
    | cons c d =>
      have := utf8EncodeRune_ne_nil c
      simp [bytes, this]

theorem length_bytes_ToLower (P : List Char) (h : ∀ c ∈ P, keepsWidth c = true) :
    ((P.map toLowerRune).map utf8EncodeRune).flatten.length =
      (P.map utf8EncodeRune).flatten.length := by
  induction P with
  | nil => rfl
  | cons c P ih =>
    have hc := h c (List.mem_cons_self _ _)
    simp only [keepsWidth, decide_eq_true_eq] at hc
    simp only [List.map_cons, List.flatten_cons, List.length_append, hc,
      ih (fun d hd => h d (List.mem_cons_of_mem _ hd))]

theorem getLast?_bytes_ToLower (P : String) (b : Nat)
    (hmax : ∀ c ∈ P.data.getLast?, isPressureChar c = false)
    (hb : (bytes (ToLower P)).getLast? = some b) : isPressureByte b = false := by
  cases P with
  | mk d =>
    induction d using List.reverseRecOn with
    | nil => simp [bytes, ToLower] at hb
    | append_singleton init c _ =>
      simp only [bytes, ToLower, List.map_append, List.map_cons, List.map_nil,
        List.flatten_append, List.flatten_cons, List.flatten_nil, List.append_nil] at hb
      rw [List.getLast?_append_of_ne_nil _ (utf8EncodeRune_ne_nil _)] at hb
      have hc : isPressureChar c = false := hmax c (by simp)
      cases hp : isPressureByte b with
      | false => rfl
      | true =>
        have := pressure_of_toLowerRune c (getLast?_utf8EncodeRune _ b hb hp)
        rw [hc] at this
        exact absurd this (by decide)

theorem scanBack_run (A B C : List Nat) (hB : ∀ b ∈ B, isPressureByte b = true)
    (hA : ∀ a, A.getLast? = some a → isPressureByte a = false) :
    scanBack (A ++ B ++ C) (A.length + B.length) = A.length := by
  induction B using List.reverseRecOn generalizing C with
  | nil =>
    simp only [List.append_nil, List.length_nil, Nat.add_zero]
    induction A using List.reverseRecOn with
    | nil => rfl
    | append_singleton init a _ =>
      have ha : isPressureByte a = false := hA a (by simp)
      simp only [List.length_append, List.length_singleton, scanBack]
      have hget : (init ++ [a] ++ C).getD init.length 0 = a := by
        rw [List.getD_eq_getElem?_getD, List.append_assoc,
          List.getElem?_append_right (le_refl _)]
        simp
      rw [hget, ha]
      simp
  | append_singleton B b ih =>
    have hb : isPressureByte b = true := hB b (by simp)
    have hlen : A.length + (B ++ [b]).length = (A.length + B.length) + 1 := by
      simp [Nat.add_assoc]
    rw [hlen]
    simp only [scanBack]
    have hget : (A ++ (B ++ [b]) ++ C).getD (A.length + B.length) 0 = b := by
      have : A ++ (B ++ [b]) ++ C = (A ++ B) ++ (b :: C) := by simp
      rw [this, List.getD_eq_getElem?_getD, List.getElem?_append_right (by simp)]
      simp
    rw [hget, hb]
    simp only [if_true]
    have hre : A ++ (B ++ [b]) ++ C = A ++ B ++ (b :: C) := by simp
    rw [hre]
    exact ih (b :: C) (fun x hx => hB x (by simp [hx]))

theorem slice_middle (X R Y : List Nat) :
    slice (X ++ R ++ Y) X.length (X.length + R.length) = some R := by
  unfold slice
  have h1 : X.length ≤ X.length + R.length ∧ X.length + R.length ≤ (X ++ R ++ Y).length := by
    simp only [List.length_append]
    omega
  rw [if_pos h1]
  simp [List.append_assoc, List.drop_append_eq_append_drop, List.take_append_eq_append_take]

/-- The token block of `extractPressure` in the situation `TokenRun`: it parses
the run `R`. -/
theorem tokenAttempt_of_run (token remarks P R : String) (h : TokenRun token remarks P R) :
    (tokenAttempt (bytes remarks) (bytes (ToLower remarks)) (bytes token) : Attempt α) =
      match (ParseFloat (bytes R) : Option (Float64 α)) with
      | some val => .parsed val
      | none => .fallsThrough := by
  obtain ⟨rest, hrem⟩ := h.split
  have hidx := h.leftmost
  have hlowR : ToLower R = R := ToLower_of_run R h.run
  have hlow : bytes (ToLower remarks) =
      bytes (ToLower P) ++ bytes R ++ bytes (ToLower rest) := by
    rw [hrem, ToLower_append, ToLower_append, bytes_append, bytes_append, hlowR]
  have hlen : (bytes (ToLower (P ++ R))).length = (bytes (ToLower P)).length + (bytes R).length := by
    rw [ToLower_append, bytes_append, hlowR, List.length_append]
  have hw : (bytes (ToLower P)).length = (bytes P).length :=
    length_bytes_ToLower P.data h.width
  have hpos : 0 < (bytes R).length := List.length_pos.2 (bytes_ne_nil R h.nonempty)
  have hscan : scanBack (bytes (ToLower remarks))
      ((bytes (ToLower P)).length + (bytes R).length) = (bytes (ToLower P)).length := by
    rw [hlow]
    exact scanBack_run _ _ _ (bytes_run_pressure R h.run)
      (fun a ha => getLast?_bytes_ToLower P a h.maximal ha)
  have hslice : slice (bytes remarks) (bytes (ToLower P)).length
      ((bytes (ToLower P)).length + (bytes R).length) = some (bytes R) := by
    rw [hrem, bytes_append, bytes_append, hw]
    exact slice_middle _ _ _
  rw [hlen] at hidx
  simp only [tokenAttempt, hidx, hscan, hslice]
  rw [if_pos (by omega), if_pos (by omega)]

/-- The token block of `extractPressure` falls through when the token yields no
valid number. -/
theorem tokenAttempt_of_fails (token remarks : String) (h : TokenFails α token remarks) :
    (tokenAttempt (bytes remarks) (bytes (ToLower remarks)) (bytes token) : Attempt α) =
      .fallsThrough := by
  rcases h with h | h | ⟨i, h, hb⟩ | ⟨P, R, hrun, hp⟩
  · simp only [tokenAttempt, h]
  · simp [tokenAttempt, h]
  · have hs : scanBack (bytes (ToLower remarks)) (i + 1) = i + 1 := by
      simp only [scanBack, hb]
      simp
    simp only [tokenAttempt, h, hs]
    simp
  · rw [tokenAttempt_of_run token remarks P R hrun, hp]

/-- When both tokens yield no valid number in the sense of `TokenFails`, the
default 0.5 is returned. -/
theorem extractPressure_of_fails (remarks : String)
    (hm : TokenFails α "mpa" remarks) (hb : TokenFails α "bar" remarks) :
    (extractPressure remarks : Option (Float64 α)) = some (.finite 0.5) := by
  simp only [extractPressure, tokenAttempt_of_fails "mpa" remarks hm,
    tokenAttempt_of_fails "bar" remarks hb]

/-! ## The reference table -/

theorem velocityDB_bounds :
    ∀ kv ∈ velocityDB (α := α), 0 < kv.2.min ∧ kv.2.min ≤ kv.2.max := by
  intro kv h
  simp only [velocityDB, List.mem_cons, List.mem_singleton, List.not_mem_nil, or_false] at h
  rcases h with rfl | rfl | rfl | rfl | rfl | rfl | rfl | rfl | rfl | rfl | rfl | rfl | rfl |
    rfl | rfl <;> norm_num

theorem velocityDB_categories :
    (velocityDB (α := α)).map (fun kv => kv.2.category) =
      ["水及水溶液", "水及水溶液", "水及水溶液", "蒸汽系统", "蒸汽系统", "蒸汽系统", "气体介质", "气体介质",
        "气体介质", "特殊流体", "特殊流体", "特殊流体", "暖通专用", "暖通专用", "暖通专用"] := rfl

theorem velocityDB_recommendations :
    (velocityDB (α := α)).map (fun kv => kv.2.recommendation) =
      ["防噪音要求≤1.2m/s", "防腐蚀需≤2.2m/s", "制冷系统/化工流程，需考虑沸点升高效应",
        "避免冷凝水携带（≤25m/s）", "管道振动控制", "防气蚀设计", "气动工具管网，需设油水分离器",
        "城市输配管网，含硫气体需降速20%", "钢铁冶炼供气，禁油设计+流速下限控制", "保冷管道+防震支架",
        "衬塑管道+低流速防结晶", "流速需＞沉降临界值", "ASHRAE标准", "防气阻设计", "耐火材料内衬"] := rfl

theorem category_ne_unknown (kv : String × VelocityEntry α) (h : kv ∈ velocityDB) :
    kv.2.category ≠ "未知" := by
  have hm : kv.2.category ∈ (velocityDB (α := α)).map (fun kv => kv.2.category) :=
    List.mem_map.2 ⟨kv, h, rfl⟩
  rw [velocityDB_categories] at hm
  intro he
  rw [he] at hm
  exact absurd hm (by decide)

theorem entryResult_ne_default (kv : String × VelocityEntry α) (h : kv ∈ velocityDB) :
    entryResult kv.2 ≠ ((1.5 : α), "未知", "请根据实际情况确定流速") := by
  intro he
  have hc : kv.2.category = "未知" := congrArg (fun t => t.2.1) he
  exact category_ne_unknown kv h hc

/-- Two entries of the table with the same result triple are the same entry. -/
theorem entryResult_injective (kv1 kv2 : String × VelocityEntry α)
    (h1 : kv1 ∈ velocityDB) (h2 : kv2 ∈ velocityDB)
    (he : entryResult kv1.2 = entryResult kv2.2) : kv1 = kv2 := by
  have hr : kv1.2.recommendation = kv2.2.recommendation := congrArg (fun t => t.2.2) he
  have hn : ((velocityDB (α := α)).map (fun kv => kv.2.recommendation)).Nodup := by
    rw [velocityDB_recommendations]
    decide
  exact List.inj_on_of_nodup_map hn h1 h2 hr

theorem positive_midpoint (kv : String × VelocityEntry α) (h : kv ∈ velocityDB) :
    0 < (entryResult kv.2).1 := by
  have hb := velocityDB_bounds kv h
  simp only [entryResult]
  linarith [hb.1, hb.2, half_pos hb.1, add_halves kv.2.min,
    div_le_div_of_nonneg_right (add_le_add_left hb.2 kv.2.min) (by norm_num : (0 : α) ≤ 2)]

/-- The result of the resolver is the result of a table entry that is found by
the exact lookup or matches fuzzily, or it is the default. -/
theorem getRecommendedVelocity_cases (order : List (String × VelocityEntry α))
    (medium : String) (hperm : order.Perm velocityDB) :
    (∃ kv ∈ velocityDB (α := α),
        (kv.1 = TrimSpace medium ∨ fuzzyMatch (TrimSpace medium) kv.1 = true) ∧
        getRecommendedVelocity order medium = entryResult kv.2) ∨
      getRecommendedVelocity order medium = (1.5, "未知", "请根据实际情况确定流速") := by
  by_cases hkey : TrimSpace medium ∈ velocityKeys
  · left
    rw [← map_fst_velocityDB (α := α)] at hkey
    obtain ⟨kv, hkv, hfst⟩ := List.mem_map.1 hkey
    refine ⟨kv, hkv, Or.inl hfst, ?_⟩
    exact getRecommendedVelocity_exact order medium kv.2 (by rw [← hfst]; exact hkv)
  · rw [getRecommendedVelocity_fuzzy order medium hkey]
    cases hf : order.find? (fun kv => fuzzyMatch (TrimSpace medium) kv.1) with
    | none => exact Or.inr rfl
    | some kv =>
      have hm := List.find?_some hf
      exact Or.inl ⟨kv, hperm.subset (List.mem_of_find?_eq_some hf), Or.inr hm, rfl⟩

theorem Index_nil (l : List Nat) : Index l [] = some 0 := by
  cases l <;> simp [Index]

theorem fuzzyMatch_empty (k : String) : fuzzyMatch "" k = true := by
  have h : Contains k "" = true := by
    have hb : bytes "" = [] := rfl
    simp [Contains, hb, Index_nil]
  simp [fuzzyMatch, h]

theorem TrimSpace_of_all_space (s : String) (h : ∀ c ∈ s.data, isSpace c = true) :
    TrimSpace s = "" := by
  have hd : s.data.dropWhile isSpace = [] := List.dropWhile_eq_nil_iff.2 h
  simp only [TrimSpace, hd]
  rfl

/-! ## Slice bounds and emitted records -/

theorem Index_le_length (l sub : List Nat) (i : Nat) (h : Index l sub = some i) :
    i ≤ l.length := by
  induction l generalizing i with
  | nil =>
    simp only [Index] at h
    split_ifs at h
    simp only [Option.some.injEq] at h
    omega
  | cons b l ih =>
    simp only [Index] at h
    split_ifs at h
    · simp only [Option.some.injEq] at h
      omega
    · cases hi : Index l sub with
      | none => simp [hi] at h
      | some j =>
        simp only [hi, Option.map_some', Option.some.injEq] at h
        have := ih j hi
        simp only [List.length_cons]
        omega

theorem scanBack_le (lower : List Nat) (start : Nat) : scanBack lower start ≤ start := by
  induction start with
  | zero => simp [scanBack]
  | succ n ih =>
    simp only [scanBack]
    split_ifs
    · omega
    · omega

/-- A token block does not panic when the lower-cased copy is not longer than
the remark. -/
theorem tokenAttempt_ne_panics (remarks lower token : List Nat)
    (h : lower.length ≤ remarks.length) :
    (tokenAttempt remarks lower token : Attempt α) ≠ .panics := by
  unfold tokenAttempt
  cases hi : Index lower token with
  | none => simp
  | some idx =>
    have hle := Index_le_length lower token idx hi
    have hs := scanBack_le lower idx
    have hslice : slice remarks (scanBack lower idx) idx =
        some ((remarks.drop (scanBack lower idx)).take (idx - scanBack lower idx)) := by
      unfold slice
      rw [if_pos ⟨hs, le_trans hle h⟩]
    simp only [hslice]
    split_ifs
    · cases (ParseFloat (List.take (idx - scanBack lower idx)
        (List.drop (scanBack lower idx) remarks)) : Option (Float64 α)) <;> simp
    · simp
    · simp

/-- On the remarks that lower-casing does not lengthen, `extractPressure` returns. -/
theorem extractPressure_isSome_of_length (remarks : String)
    (h : (bytes (ToLower remarks)).length ≤ (bytes remarks).length) :
    (extractPressure remarks : Option (Float64 α)).isSome = true := by
  have h1 := tokenAttempt_ne_panics (α := α) (bytes remarks) (bytes (ToLower remarks))
    (bytes "mpa") h
  have h2 := tokenAttempt_ne_panics (α := α) (bytes remarks) (bytes (ToLower remarks))
    (bytes "bar") h
  simp only [extractPressure]
  cases hm : (tokenAttempt (bytes remarks) (bytes (ToLower remarks)) (bytes "mpa") :
      Attempt α) with
  | panics => exact absurd hm h1
  | parsed v => rfl
  | fallsThrough =>
    cases hb : (tokenAttempt (bytes remarks) (bytes (ToLower remarks)) (bytes "bar") :
        Attempt α) with
    | panics => exact absurd hb h2
    | parsed v => rfl
    | fallsThrough => rfl

/-- What an emitted record consists of. -/
theorem processRow_emitted_inv (pi : α) (order : List (String × VelocityEntry α))
    (row : List String) (r : ResultRecord α) (h : processRow pi order row = .emitted r) :
    ∃ (c0 c1 c2 : String) (more : List String),
      row = c0 :: c1 :: c2 :: more ∧
      (parseFloat (TrimSpace c0) : Option (Float64 α)) = some (.finite r.pipeDiameter) ∧
      (extractPressure (TrimSpace c2) : Option (Float64 α)) = some (.finite r.pressure) ∧
      r.medium = TrimSpace c1 ∧
      r.velocity = (getRecommendedVelocity order (TrimSpace c1)).1 ∧
      r.volumeFlowRate = calculateVolumeFlowRate pi r.pipeDiameter r.velocity ∧
      r.massFlowRate = r.volumeFlowRate *
        (if Contains r.medium "蒸汽" then calculateSteamDensity r.pressure
          else getApproximateDensity r.medium) / 1000 := by
  match row with
  | [] => simp [processRow] at h
  | [_] => simp [processRow] at h
  | [_, _] => simp [processRow] at h
  | c0 :: c1 :: c2 :: more =>
    cases hd : (parseFloat (TrimSpace c0) : Option (Float64 α)) with
    | none => simp [processRow, hd] at h
    | some dv =>
      cases hp : (extractPressure (TrimSpace c2) : Option (Float64 α)) with
      | none => simp [processRow, hd, hp] at h
      | some pv =>
        cases dv with
        | nonFinite v => cases pv <;> simp [processRow, hd, hp] at h
        | finite d =>
          cases pv with
          | nonFinite v => simp [processRow, hd, hp] at h
          | finite p =>
            rw [processRow_emitted pi order c0 c1 c2 more d p hd hp] at h
            injection h with h
            subst h
            exact ⟨c0, c1, c2, more, rfl, hd, hp, rfl, rfl, rfl, rfl⟩

theorem calculateSteamDensity_low (p : α) (h : p < 0.32) :
    calculateSteamDensity p = 5.2353 * p + 0.0816 := by
  simp only [calculateSteamDensity, if_pos h]

theorem calculateSteamDensity_mid (p : α) (h1 : 0.32 ≤ p) (h2 : p < 1.00) :
    calculateSteamDensity p = 5.0221 * p + 0.1517 := by
  simp only [calculateSteamDensity, if_neg (not_lt.2 h1), if_pos h2]

theorem calculateSteamDensity_high (p : α) (h : 1.00 ≤ p) :
    calculateSteamDensity p = 4.9283 * p + 0.2173 := by
  have h1 : ¬ p < 0.32 := by
    have : (0.32 : α) < 1.00 := by norm_num
    exact not_lt.2 (le_trans (le_of_lt this) h)
  simp only [calculateSteamDensity, if_neg h1, if_neg (not_lt.2 h)]

theorem calculateVolumeFlowRate_nonneg (pi d v : α) (hpi : 0 ≤ pi) (hv : 0 ≤ v) :
    0 ≤ calculateVolumeFlowRate pi d v := by
  rw [calculateVolumeFlowRate_eq]
  have h1 : 0 ≤ (d / 2000) ^ 2 := sq_nonneg _
  have h2 : 0 ≤ pi * (d / 2000) ^ 2 := mul_nonneg hpi h1
  exact mul_nonneg (mul_nonneg h2 hv) (by norm_num)

theorem getApproximateDensity_pos (medium : String) :
    (0 : α) < getApproximateDensity medium := by
  simp only [getApproximateDensity]
  split_ifs <;> norm_num

theorem calculateSteamDensity_nonneg_iff (p : α) :
    0 ≤ calculateSteamDensity p ↔ -(0.0816 / 5.2353) ≤ p := by
  have hc : (5.2353 : α) * (0.0816 / 5.2353) = 0.0816 := by norm_num
  by_cases h1 : p < 0.32
  · rw [calculateSteamDensity_low p h1]
    constructor <;> intro h <;> nlinarith
  · have h1' := not_lt.1 h1
    have hp : (0 : α) ≤ p := le_trans (by norm_num) h1'
    have hq : (0 : α) ≤ 0.0816 / 5.2353 := by norm_num
    have hpos : 0 ≤ calculateSteamDensity p := by
      by_cases h2 : p < 1.00
      · rw [calculateSteamDensity_mid p h1' h2]
        nlinarith
      · rw [calculateSteamDensity_high p (not_lt.1 h2)]
        nlinarith
    constructor
    · intro _
      linarith
    · intro _
      exact hpos

theorem getRecommendedVelocity_pos (order : List (String × VelocityEntry α))
    (medium : String) (hperm : order.Perm velocityDB) :
    0 < (getRecommendedVelocity order medium).1 := by
  rcases getRecommendedVelocity_cases order medium hperm with ⟨kv, hkv, _, he⟩ | he
  · rw [he]
    exact positive_midpoint kv hkv
  · rw [he]
    norm_num

/-! ## Claims C1 to C4: the row processor and the flow formula -/

theorem getRecommendedVelocity_tapWater (order : List (String × VelocityEntry α)) :
    getRecommendedVelocity order "自来水" = (1.25, "水及水溶液", "防噪音要求≤1.2m/s") := by
  have ht : TrimSpace "自来水" = "自来水" := by decide
  simp only [getRecommendedVelocity, ht]
  simp [velocityDB, List.lookup, entryResult]
  norm_num

theorem parseFloat_100 :
    (parseFloat (TrimSpace "100") : Option (Float64 α)) = some (.finite 100) := by
  have h := parseFloat_of_readFloat (α := α) (TrimSpace "100") (false, 100, false, 0) 100
    (by decide) (by decide) (by norm_num [floatValue])
  simpa using h

theorem processRow_tapWater (pi : α) (order : List (String × VelocityEntry α)) :
    processRow pi order ["100", "自来水", "常温常压"] =
      .emitted
        { pipeDiameter := 100, medium := "自来水", remarks := "常温常压", pressure := 0.5,
          velocity := 1.25, volumeFlowRate := pi * 0.05 ^ 2 * 1.25 * 3600,
          massFlowRate := pi * 0.05 ^ 2 * 1.25 * 3600,
          category := "水及水溶液", recommendation := "防噪音要求≤1.2m/s" } := by
  have h1 : TrimSpace "自来水" = "自来水" := by decide
  have h2 : TrimSpace "常温常压" = "常温常压" := by decide
  have hp : (extractPressure (TrimSpace "常温常压") : Option (Float64 α)) =
      some (.finite 0.5) :=
    extractPressure_of_absent _ (by decide) (by decide)
  rw [processRow_emitted pi order _ _ _ _ 100 0.5 parseFloat_100 hp]
  have hs : Contains "自来水" "蒸汽" = false := by decide
  have hw : Contains "自来水" "水" = true := by decide
  simp only [h1, h2, getRecommendedVelocity_tapWater, hs, calculateVolumeFlowRate_eq,
    getApproximateDensity, hw]
  congr 1
  norm_num

/-- The record of a row on whose remark `extractPressure` returns `p`: a row with
at least 3 cells whose first cell parses as `d` yields exactly one record: diameter `d`, pressure the value `p` of `extractPressure` on the remark,
velocity, category and recommendation from `getRecommendedVelocity` on the medium,
volume flow `calculateVolumeFlowRate d velocity`, mass flow `volumeFlow * rho / 1000`
with `rho` the steam density at `p` when the medium contains "蒸汽" and the
approximate density of the medium otherwise.  The row `["100", "自来水", "常温常压"]`
gives diameter 100, pressure 0.5, velocity 1.25, volume flow
`π·0.05²·1.25·3600 = 11.25·π ≈ 35.34`, density 1000, the same mass flow, and the
category "水及水溶液". -/
theorem processRow_computes_record :
    (∀ (β : Type) [LinearOrderedField β] (pi : β) (order : List (String × VelocityEntry β))
      (c0 c1 c2 : String) (more : List String) (d p : β),
      parseFloat (TrimSpace c0) = some (.finite d) →
      extractPressure (TrimSpace c2) = some (.finite p) →
      processRow pi order (c0 :: c1 :: c2 :: more) =
        .emitted
          { pipeDiameter := d
            medium := TrimSpace c1
            remarks := TrimSpace c2
            pressure := p
            velocity := (getRecommendedVelocity order (TrimSpace c1)).1
            volumeFlowRate :=
              calculateVolumeFlowRate pi d (getRecommendedVelocity order (TrimSpace c1)).1
            massFlowRate :=
              calculateVolumeFlowRate pi d (getRecommendedVelocity order (TrimSpace c1)).1 *
                (if Contains (TrimSpace c1) "蒸汽" then calculateSteamDensity p
                  else getApproximateDensity (TrimSpace c1)) / 1000
            category := (getRecommendedVelocity order (TrimSpace c1)).2.1
            recommendation := (getRecommendedVelocity order (TrimSpace c1)).2.2 }) ∧
    (∀ order : List (String × VelocityEntry ℝ),
      processRow Real.pi order ["100", "自来水", "常温常压"] =
        .emitted
          { pipeDiameter := 100, medium := "自来水", remarks := "常温常压", pressure := 0.5,
            velocity := 1.25, volumeFlowRate := Real.pi * 0.05 ^ 2 * 1.25 * 3600,
            massFlowRate := Real.pi * 0.05 ^ 2 * 1.25 * 3600,
            category := "水及水溶液", recommendation := "防噪音要求≤1.2m/s" }) ∧
    Real.pi * 0.05 ^ 2 * 1.25 * 3600 = 11.25 * Real.pi ∧
    |Real.pi * 0.05 ^ 2 * 1.25 * 3600 - 35.34| < 0.005 ∧
    (getApproximateDensity "自来水" : ℝ) = 1000 := by
  refine ⟨fun β _ pi order c0 c1 c2 more d p hd hp =>
    processRow_emitted pi order c0 c1 c2 more d p hd hp,
    fun order => processRow_tapWater Real.pi order, by ring, ?_, ?_⟩
  · have h1 := Real.pi_gt_d6
    have h2 := Real.pi_lt_d6
    rw [abs_lt]
    constructor <;> nlinarith
  · have hw : Contains "自来水" "水" = true := by decide
    simp [getApproximateDensity, hw]

/-- C1, the code at the failing input.  The row `["100", "自来水", "ȺȺȺȺ1mpa"]` has
3 cells and its first cell parses as 100, so the claim asks for exactly one record;
but `extractPressure` panics on the remark (the slice bounds 12 and 13, computed on
the lower-cased copy, exceed the 12 bytes of the remark), and the row processor
emits no record. -/
theorem processRow_crashes_on_shifted_remark :
    (parseFloat (TrimSpace "100") : Option (Float64 ℚ)) = some (.finite 100) ∧
    (extractPressure (TrimSpace "ȺȺȺȺ1mpa") : Option (Float64 ℚ)) = none ∧
    processRow (22 / 7 : ℚ) velocityDB ["100", "自来水", "ȺȺȺȺ1mpa"] = .crashed := by
  have hp : (extractPressure (TrimSpace "ȺȺȺȺ1mpa") : Option (Float64 ℚ)) = none := by
    decide
  refine ⟨parseFloat_100, hp, ?_⟩
  simp only [processRow, parseFloat_100, hp]

/-- The rows written by a run.  When `extractPressure` returns on the remark of every valid row from the
start index on, the run returns, and the rows it writes correspond one-to-one and
in input order to exactly the valid rows (at least 3 cells, first cell parses) at
or after the start index; every other row is skipped.  For a batch without header
whose rows all have at least 3 cells and of which exactly one has an unparseable
diameter, the number of rows written is the number of rows minus one. -/
theorem processRows_records (pi : α)
    (orderAt : Nat → List (String × VelocityEntry α)) (rows : List (List String))
    (hret : ∀ row ∈ rows.drop (startRow rows),
      validRow α row = true → remarkReturns α row = true) :
    ∃ outs, processRows pi orderAt rows = some outs ∧
      List.Forall₂ (fun (p : Nat × List String) o =>
          processRow pi (orderAt p.1) p.2 = o ∧ o ≠ .skipped ∧ o ≠ .crashed)
        (((rows.drop (startRow rows)).enumFrom (startRow rows)).filter
          (fun p => validRow α p.2)) outs ∧
      (∀ p ∈ (rows.drop (startRow rows)).enumFrom (startRow rows),
        validRow α p.2 = false → processRow pi (orderAt p.1) p.2 = .skipped) ∧
      (startRow rows = 0 → (∀ row ∈ rows, 3 ≤ row.length) →
        rows.countP (fun row =>
          (parseFloat (TrimSpace (row.getD 0 "")) : Option (Float64 α)).isNone) = 1 →
        outs.length = rows.length - 1) := by
  obtain ⟨outs, houts, hall⟩ :=
    processFrom_records pi orderAt (rows.drop (startRow rows)) (startRow rows) hret
  refine ⟨outs, houts, hall, ?_, ?_⟩
  · intro p _ hp
    exact (processRow_skipped_iff pi (orderAt p.1) p.2).2 hp
  · intro h0 h3 h1
    have hlen := hall.length_eq
    rw [length_filter_enumFrom (validRow α), h0, List.drop_zero] at hlen
    have hsplit := List.length_eq_countP_add_countP (validRow α) rows
    have hcongr : rows.countP (fun row => ¬ validRow α row = true) =
        rows.countP (fun row =>
          (parseFloat (TrimSpace (row.getD 0 "")) : Option (Float64 α)).isNone) := by
      apply List.countP_congr
      intro row hrow
      have hr := h3 row hrow
      match row, hr with
      | c0 :: _ :: _ :: _, _ =>
        cases h : (parseFloat (TrimSpace c0) : Option (Float64 α)) <;> simp [validRow, h]
    rw [hcongr, h1] at hsplit
    omega

/-- A batch of three rows, the second with the diameter "abc", yields two records. -/
theorem processRows_records_example :
    ∃ outs, processRows (22 / 7 : ℚ) (fun _ => velocityDB)
        [["100", "自来水", "常温常压"], ["abc", "自来水", "常温常压"], ["50", "热水", ""]]
        = some outs ∧ outs.length = 2 := by
  have hp : (extractPressure (TrimSpace "常温常压") : Option (Float64 ℚ)) =
      some (.finite 0.5) :=
    extractPressure_of_absent _ (by decide) (by decide)
  have hp2 : (extractPressure (TrimSpace "") : Option (Float64 ℚ)) = some (.finite 0.5) :=
    extractPressure_of_absent _ (by decide) (by decide)
  have h100 : (parseFloat (TrimSpace "100") : Option (Float64 ℚ)) = some (.finite 100) :=
    parseFloat_100
  have h50 : (parseFloat (TrimSpace "50") : Option (Float64 ℚ)) = some (.finite 50) := by
    have h := parseFloat_of_readFloat (α := ℚ) (TrimSpace "50") (false, 50, false, 0) 50
      (by decide) (by decide) (by norm_num [floatValue])
    simpa using h
  have habc : (parseFloat (TrimSpace "abc") : Option (Float64 ℚ)) = none :=
    parseFloat_of_readFloat_none _ (by decide)
  have hs : startRow [["100", "自来水", "常温常压"], ["abc", "自来水", "常温常压"],
      ["50", "热水", ""]] = 0 := by decide
  obtain ⟨outs, h1, _, _, h4⟩ := processRows_records (22 / 7 : ℚ)
    (fun _ => velocityDB)
    [["100", "自来水", "常温常压"], ["abc", "自来水", "常温常压"], ["50", "热水", ""]]
    (by
      intro row _ _
      rw [hs, List.drop_zero] at *
      simp only [List.mem_cons, List.mem_singleton, List.not_mem_nil, or_false] at *
      rcases ‹_› with rfl | rfl | rfl <;> simp [remarkReturns, hp, hp2])
  refine ⟨outs, h1, ?_⟩
  have := h4 hs (by simp) (by simp [List.countP_cons, h100, h50, habc])
  simpa using this

/-- C2, the code at the failing input.  The batch has no header and three rows of
3 cells; the first and the third are valid, the second has the diameter "abc", so
the claim asks for two records.  The run panics in `extractPressure` on the remark
of the third row and emits no record at all. -/
theorem processRows_crashes_on_shifted_remark :
    startRow [["100", "自来水", "常温常压"], ["abc", "自来水", "常温常压"],
      ["50", "热水", "ȺȺȺȺ1mpa"]] = 0 ∧
    validRow ℚ ["100", "自来水", "常温常压"] = true ∧
    validRow ℚ ["abc", "自来水", "常温常压"] = false ∧
    validRow ℚ ["50", "热水", "ȺȺȺȺ1mpa"] = true ∧
    processRows (22 / 7 : ℚ) (fun _ => velocityDB)
      [["100", "自来水", "常温常压"], ["abc", "自来水", "常温常压"],
        ["50", "热水", "ȺȺȺȺ1mpa"]] = none := by
  have hs : startRow [["100", "自来水", "常温常压"], ["abc", "自来水", "常温常压"],
      ["50", "热水", "ȺȺȺȺ1mpa"]] = 0 := by decide
  have h100 : (parseFloat (TrimSpace "100") : Option (Float64 ℚ)) = some (.finite 100) :=
    parseFloat_100
  have h50 : (parseFloat (TrimSpace "50") : Option (Float64 ℚ)) = some (.finite 50) := by
    have h := parseFloat_of_readFloat (α := ℚ) (TrimSpace "50") (false, 50, false, 0) 50
      (by decide) (by decide) (by norm_num [floatValue])
    simpa using h
  have habc : (parseFloat (TrimSpace "abc") : Option (Float64 ℚ)) = none :=
    parseFloat_of_readFloat_none _ (by decide)
  have hp : (extractPressure (TrimSpace "常温常压") : Option (Float64 ℚ)) =
      some (.finite 0.5) :=
    extractPressure_of_absent _ (by decide) (by decide)
  have hcrash : (extractPressure (TrimSpace "ȺȺȺȺ1mpa") : Option (Float64 ℚ)) = none := by
    decide
  refine ⟨hs, by simp [validRow, h100], by simp [validRow, habc], by simp [validRow, h50], ?_⟩
  have h1 := processRow_emitted (22 / 7 : ℚ) velocityDB "100" "自来水" "常温常压" [] 100 0.5
    h100 hp
  have h2 : processRow (22 / 7 : ℚ) velocityDB ["abc", "自来水", "常温常压"] = .skipped := by
    simp only [processRow, habc]
  have h3 : processRow (22 / 7 : ℚ) velocityDB ["50", "热水", "ȺȺȺȺ1mpa"] = .crashed := by
    simp only [processRow, h50, hcrash]
  simp only [processRows, hs, List.drop_zero, processFrom, h1, h2, h3, Option.map_none']

theorem parseFloat_neg100 :
    (parseFloat (TrimSpace "-100") : Option (Float64 α)) = some (.finite (-100)) := by
  have h := parseFloat_of_readFloat (α := α) (TrimSpace "-100") (true, 100, false, 0) (-100)
    (by decide) (by decide) (by norm_num [floatValue])
  simpa using h

theorem parseFloat_zero :
    (parseFloat (TrimSpace "0") : Option (Float64 α)) = some (.finite 0) := by
  have h := parseFloat_of_readFloat (α := α) (TrimSpace "0") (false, 0, false, 0) 0
    (by decide) (by decide) (by norm_num [floatValue])
  simpa using h

/-- The texts "NaN", "-Infinity", "1_000" and "0x1p4" are diameters that
`parseFloat` reads without an error, as `strconv.ParseFloat` does: NaN, `-Inf`,
1000 and 16. -/
theorem parseFloat_other_literals :
    (parseFloat "NaN" : Option (Float64 α)) = some (.nonFinite .nan) ∧
    (parseFloat "-Infinity" : Option (Float64 α)) = some (.nonFinite .negInf) ∧
    (parseFloat "1_000" : Option (Float64 α)) = some (.finite 1000) ∧
    (parseFloat "0x1p4" : Option (Float64 α)) = some (.finite 16) := by
  refine ⟨parseFloat_of_special _ _ (by decide) (by decide),
    parseFloat_of_special _ _ (by decide) (by decide), ?_, ?_⟩
  · have h := parseFloat_of_readFloat (α := α) "1_000" (false, 1000, false, 0) 1000
      (by decide) (by decide) (by norm_num [floatValue])
    simpa using h
  · have h := parseFloat_of_readFloat (α := α) "0x1p4" (false, 1, true, 4) 16
      (by decide) (by decide) (by norm_num [floatValue])
    simpa using h

/-- A row with the diameter "NaN" is not skipped: it is written with the diameter
NaN. -/
theorem processRow_nan_diameter (pi : α) (order : List (String × VelocityEntry α)) :
    processRow pi order ["NaN", "自来水", "常温常压"] =
      .emittedNonFinite (.nonFinite .nan) (.finite 0.5) := by
  have hd : (parseFloat (TrimSpace "NaN") : Option (Float64 α)) = some (.nonFinite .nan) :=
    parseFloat_of_special _ _ (by decide) (by decide)
  have hp : (extractPressure (TrimSpace "常温常压") : Option (Float64 α)) =
      some (.finite 0.5) :=
    extractPressure_of_absent _ (by decide) (by decide)
  simp only [processRow, hd, hp]

/-- Counterexample to C3: the rows with the diameter cells "-100" and "0" parse to
a negative number and to zero, and each yields a record with that diameter. -/
theorem nonpositive_diameter_emitted :
    (parseFloat (TrimSpace "-100") : Option (Float64 ℚ)) = some (.finite (-100)) ∧
    (parseFloat (TrimSpace "0") : Option (Float64 ℚ)) = some (.finite 0) ∧
    (∃ r, processRow (22 / 7 : ℚ) velocityDB ["-100", "自来水", "常温常压"] = .emitted r ∧
      r.pipeDiameter = -100) ∧
    (∃ r, processRow (22 / 7 : ℚ) velocityDB ["0", "自来水", "常温常压"] = .emitted r ∧
      r.pipeDiameter = 0) := by
  have hp : (extractPressure (TrimSpace "常温常压") : Option (Float64 ℚ)) =
      some (.finite 0.5) :=
    extractPressure_of_absent _ (by decide) (by decide)
  have hneg : (parseFloat (TrimSpace "-100") : Option (Float64 ℚ)) =
      some (.finite (-100)) := parseFloat_neg100
  have hzero : (parseFloat (TrimSpace "0") : Option (Float64 ℚ)) = some (.finite 0) :=
    parseFloat_zero
  exact ⟨hneg, hzero,
    ⟨_, processRow_emitted _ _ _ _ _ _ _ _ hneg hp, rfl⟩,
    ⟨_, processRow_emitted _ _ _ _ _ _ _ _ hzero hp, rfl⟩⟩

/-- C3, amended.  A row is skipped exactly when it has fewer than 3 cells or
`parseFloat` returns an error on its first cell; the sign of the number is not
examined.  A row with at least 3 cells whose first cell parses to a number
`d ≤ 0` is not skipped, and whenever `extractPressure` returns on its remark the
row is written with the diameter `d`: as a record with diameter `d` when the
pressure returned is finite, and with that diameter and the pressure returned
when it is an infinity or NaN. -/
theorem processRow_skips_only_unparseable :
    (∀ (β : Type) [LinearOrderedField β] (pi : β) (order : List (String × VelocityEntry β))
      (row : List String),
      processRow pi order row = .skipped ↔
        (row.length < 3 ∨
          (parseFloat (TrimSpace (row.getD 0 "")) : Option (Float64 β)) = none)) ∧
    (∀ (β : Type) [LinearOrderedField β] (pi : β) (order : List (String × VelocityEntry β))
      (c0 c1 c2 : String) (more : List String) (d : β),
      parseFloat (TrimSpace c0) = some (.finite d) → d ≤ 0 →
      processRow pi order (c0 :: c1 :: c2 :: more) ≠ .skipped) ∧
    (∀ (β : Type) [LinearOrderedField β] (pi : β) (order : List (String × VelocityEntry β))
      (c0 c1 c2 : String) (more : List String) (d : β) (v : Float64 β),
      parseFloat (TrimSpace c0) = some (.finite d) → d ≤ 0 →
      extractPressure (TrimSpace c2) = some v →
      (∃ r, processRow pi order (c0 :: c1 :: c2 :: more) = .emitted r ∧
        r.pipeDiameter = d ∧ v = .finite r.pressure) ∨
      (∃ w, v = .nonFinite w ∧
        processRow pi order (c0 :: c1 :: c2 :: more) = .emittedNonFinite (.finite d) v)) := by
  refine ⟨?_, ?_, ?_⟩
  · intro β _ pi order row
    rw [processRow_skipped_iff]
    match row with
    | [] => simp [validRow]
    | [_] => simp [validRow]
    | [_, _] => simp [validRow]
    | c0 :: _ :: _ :: _ =>
      cases h : (parseFloat (TrimSpace c0) : Option (Float64 β)) <;> simp [validRow, h]
  · intro β _ pi order c0 c1 c2 more d hd _ hs
    have hv := (processRow_skipped_iff pi order (c0 :: c1 :: c2 :: more)).1 hs
    simp [validRow, hd] at hv
  · intro β _ pi order c0 c1 c2 more d v hd _ hp
    cases v with
    | finite p =>
      exact Or.inl ⟨_, processRow_emitted pi order c0 c1 c2 more d p hd hp, rfl, rfl⟩
    | nonFinite w =>
      refine Or.inr ⟨w, rfl, ?_⟩
      simp only [processRow, hd, hp]

/-- Witness of C3 amended: the row `["-100", "自来水", "常温常压"]` is not skipped. -/
theorem processRow_skips_only_unparseable_witness :
    processRow (22 / 7 : ℚ) velocityDB ["-100", "自来水", "常温常压"] ≠ .skipped :=
  processRow_skips_only_unparseable.2.1 ℚ (22 / 7) velocityDB "-100" "自来水" "常温常压" []
    (-100) parseFloat_neg100 (by norm_num)

/-- C4. Over the real numbers, with `math.Pi = π`, for all `diameterMM` and
`velocity` (in particular `diameterMM > 0`, `velocity ≥ 0`):
`calculateVolumeFlowRate(diameterMM, velocity) = π·(diameterMM/2000)²·velocity·3600`. -/
theorem calculateVolumeFlowRate_formula (diameterMM velocity : ℝ) :
    calculateVolumeFlowRate Real.pi diameterMM velocity =
      Real.pi * (diameterMM / 2000) ^ 2 * velocity * 3600 := by
  have h : (1000.0 : ℝ) = 1000 := by norm_num
  simp only [calculateVolumeFlowRate, h]
  ring

/-! ## Claims C5 to C7: the medium resolver -/

theorem find?_perm_result (order1 order2 : List (String × VelocityEntry α))
    (p : String × VelocityEntry α → Bool) (hperm : order1.Perm order2)
    (hsame : ∀ kv1 ∈ order1, ∀ kv2 ∈ order1, p kv1 = true → p kv2 = true →
      entryResult kv1.2 = entryResult kv2.2) :
    (match order1.find? p with
      | some kv => entryResult kv.2
      | none => ((1.5 : α), "未知", "请根据实际情况确定流速")) =
    (match order2.find? p with
      | some kv => entryResult kv.2
      | none => ((1.5 : α), "未知", "请根据实际情况确定流速")) := by
  cases hf1 : order1.find? p with
  | none =>
    have hnone : order2.find? p = none := by
      rw [List.find?_eq_none] at hf1 ⊢
      exact fun x hx => hf1 x (hperm.symm.subset hx)
    rw [hnone]
  | some kv1 =>
    have hm1 := List.mem_of_find?_eq_some hf1
    have hp1 := List.find?_some hf1
    cases hf2 : order2.find? p with
    | none =>
      rw [List.find?_eq_none] at hf2
      exact absurd hp1 (hf2 kv1 (hperm.subset hm1))
    | some kv2 =>
      have hm2 := hperm.symm.subset (List.mem_of_find?_eq_some hf2)
      have hp2 := List.find?_some hf2
      exact hsame kv1 hm1 kv2 hm2 hp1 hp2

theorem same_result_of_unique_key (t k0 : String)
    (h : ∀ k ∈ velocityKeys, fuzzyMatch t k = true → k = k0) :
    ∀ kv1 ∈ velocityDB (α := α), ∀ kv2 ∈ velocityDB (α := α),
      fuzzyMatch t kv1.1 = true → fuzzyMatch t kv2.1 = true →
      entryResult kv1.2 = entryResult kv2.2 := by
  intro kv1 h1 kv2 h2 m1 m2
  have e1 := h kv1.1 (key_mem_of_mem kv1 h1) m1
  have e2 := h kv2.1 (key_mem_of_mem kv2 h2) m2
  have l1 := lookup_velocityDB_of_mem kv1.1 kv1.2 h1
  have l2 := lookup_velocityDB_of_mem kv2.1 kv2.2 h2
  rw [e1] at l1
  rw [e2, l1] at l2
  rw [Option.some.inj l2]

/-- C5. Exact match takes precedence over fuzzy match: for every key `k` of the
reference table with entry `e`, surrounded by any leading and trailing white space,
and for every iteration order of the table, `getRecommendedVelocity` returns
`((e.min + e.max)/2, e.category, e.recommendation)`; "自来水" gives
`(1.25, "水及水溶液", "防噪音要求≤1.2m/s")`. -/
theorem exact_match_precedes_fuzzy (order : List (String × VelocityEntry α))
    (k : String) (e : VelocityEntry α) (ws1 ws2 : String)
    (hk : (k, e) ∈ velocityDB)
    (h1 : ∀ c ∈ ws1.data, isSpace c = true) (h2 : ∀ c ∈ ws2.data, isSpace c = true) :
    getRecommendedVelocity order (ws1 ++ k ++ ws2) =
        ((e.min + e.max) / 2, e.category, e.recommendation) ∧
      getRecommendedVelocity order "自来水" = (1.25, "水及水溶液", "防噪音要求≤1.2m/s") := by
  refine ⟨?_, getRecommendedVelocity_tapWater order⟩
  have ht : tight k = true :=
    List.all_eq_true.1 velocityKeys_tight k (key_mem_of_mem (k, e) hk)
  have htrim : TrimSpace (ws1 ++ k ++ ws2) = k := TrimSpace_pad_of_tight ws1 k ws2 h1 h2 ht
  exact getRecommendedVelocity_exact order _ e (by rw [htrim]; exact hk)

/-- Witness of C5: the key "热水" between blanks, with the table iterated in
reverse order (where the key "高温烟气" comes first). -/
theorem exact_match_precedes_fuzzy_witness :
    getRecommendedVelocity (velocityDB (α := ℚ)).reverse ("  " ++ "热水" ++ " ") =
      ((0.3 + 0.5) / 2, "暖通专用", "防气阻设计") :=
  (exact_match_precedes_fuzzy (velocityDB (α := ℚ)).reverse "热水"
    ⟨0.3, 0.5, "暖通专用", "防气阻设计"⟩ "  " " " (by simp [velocityDB]) (by decide)
    (by decide)).1

/-- C6. A medium whose trimmed form neither contains a reference key nor is
contained in one gets the default: velocity 1.5, category "未知" and the non-empty
recommendation "请根据实际情况确定流速". -/
theorem unmatched_medium_default (order : List (String × VelocityEntry α))
    (medium : String) (hperm : order.Perm velocityDB)
    (hno : ∀ k ∈ velocityKeys,
      Contains (TrimSpace medium) k = false ∧ Contains k (TrimSpace medium) = false) :
    getRecommendedVelocity order medium = (1.5, "未知", "请根据实际情况确定流速") ∧
      (getRecommendedVelocity order medium).2.2 ≠ "" := by
  have hkey : TrimSpace medium ∉ velocityKeys := by
    intro hmem
    have := (hno _ hmem).1
    rw [Contains_self] at this
    exact Bool.noConfusion this
  have hfind : order.find? (fun kv => fuzzyMatch (TrimSpace medium) kv.1) = none := by
    rw [List.find?_eq_none]
    intro kv hkv
    have hk := hno kv.1 (key_mem_of_mem kv (hperm.subset hkv))
    simp [fuzzyMatch, hk.1, hk.2]
  have hres : getRecommendedVelocity order medium = (1.5, "未知", "请根据实际情况确定流速") := by
    rw [getRecommendedVelocity_fuzzy order medium hkey, hfind]
  refine ⟨hres, ?_⟩
  rw [hres]
  show ("请根据实际情况确定流速" : String) ≠ ""
  decide

/-- Witness of C6: the medium "未知介质X". -/
theorem unmatched_medium_default_witness :
    getRecommendedVelocity (velocityDB (α := ℚ)) "未知介质X" =
      (1.5, "未知", "请根据实际情况确定流速") :=
  (unmatched_medium_default (velocityDB (α := ℚ)) "未知介质X" (List.Perm.refl _)
    (by decide)).1

/-- Counterexample to C7: the medium "水" is no key and is contained in several
keys; with the table iterated in source order the first match is "自来水"
(category "水及水溶液"), in reverse order it is "热水" (category "暖通专用"). -/
theorem resolver_depends_on_order :
    (velocityDB (α := ℚ)).reverse.Perm velocityDB ∧
    (getRecommendedVelocity (velocityDB (α := ℚ)) "水").2.1 = "水及水溶液" ∧
    (getRecommendedVelocity (velocityDB (α := ℚ)).reverse "水").2.1 = "暖通专用" ∧
    getRecommendedVelocity (velocityDB (α := ℚ)) "水" ≠
      getRecommendedVelocity (velocityDB (α := ℚ)).reverse "水" := by
  have h1 : (getRecommendedVelocity (velocityDB (α := ℚ)) "水").2.1 = "水及水溶液" := by
    decide
  have h2 : (getRecommendedVelocity (velocityDB (α := ℚ)).reverse "水").2.1 = "暖通专用" := by
    decide
  refine ⟨List.reverse_perm _, h1, h2, ?_⟩
  intro h
  rw [h, h2] at h1
  exact absurd h1 (by decide)

/-- C7, amended.  For a medium whose trimmed form is a reference key, or whose
fuzzy-matching keys all carry the same (midpoint, category, recommendation), in
particular when at most one key matches, `getRecommendedVelocity` returns the same
result for any two iteration orders of the table. -/
theorem resolver_order_independent (order1 order2 : List (String × VelocityEntry α))
    (medium : String) (h1 : order1.Perm velocityDB) (h2 : order2.Perm velocityDB)
    (hsame : TrimSpace medium ∈ velocityKeys ∨
      ∀ kv1 ∈ velocityDB (α := α), ∀ kv2 ∈ velocityDB (α := α),
        fuzzyMatch (TrimSpace medium) kv1.1 = true →
        fuzzyMatch (TrimSpace medium) kv2.1 = true →
        entryResult kv1.2 = entryResult kv2.2) :
    getRecommendedVelocity order1 medium = getRecommendedVelocity order2 medium := by
  by_cases hkey : TrimSpace medium ∈ velocityKeys
  · rw [← map_fst_velocityDB (α := α)] at hkey
    obtain ⟨kv, hkv, hfst⟩ := List.mem_map.1 hkey
    have hmem : (TrimSpace medium, kv.2) ∈ velocityDB (α := α) := by
      rw [← hfst]
      exact hkv
    rw [getRecommendedVelocity_exact order1 medium kv.2 hmem,
      getRecommendedVelocity_exact order2 medium kv.2 hmem]
  · rcases hsame with hk | hsame
    · exact absurd hk hkey
    · rw [getRecommendedVelocity_fuzzy order1 medium hkey,
        getRecommendedVelocity_fuzzy order2 medium hkey]
      apply find?_perm_result order1 order2 _ (h1.trans h2.symm)
      intro kv1 hm1 kv2 hm2
      exact hsame kv1 (h1.subset hm1) kv2 (h1.subset hm2)

/-- Witness of C7 amended: "低压饱和蒸汽" matches the single key "饱和蒸汽", and the
source order and its reverse give the same result. -/
theorem resolver_order_independent_witness :
    getRecommendedVelocity (velocityDB (α := ℚ)) "低压饱和蒸汽" =
      getRecommendedVelocity (velocityDB (α := ℚ)).reverse "低压饱和蒸汽" :=
  resolver_order_independent (velocityDB (α := ℚ)) (velocityDB (α := ℚ)).reverse "低压饱和蒸汽"
    (List.Perm.refl _) (List.reverse_perm _)
    (Or.inr (same_result_of_unique_key (TrimSpace "低压饱和蒸汽") "饱和蒸汽" (by decide)))

/-! ## Claims C8 to C10: the remark parser -/

/-- The capital `Ɫ` (U+2C62, 3 bytes) has the lower case `ɫ` (U+026B, 2 bytes):
lower-casing does not keep its number of bytes.  In the remark "Ɫ12mpa" the bounds
2 and 4 computed on the lower-cased copy cut the slice `remarks[2:4]` out of the
last byte of `Ɫ` and the digit 1, which does not parse, and the default 0.5 is
returned; likewise for "Ɫ7bar". -/
theorem extractPressure_narrowing_capital :
    keepsWidth 'Ɫ' = false ∧
    (bytes "Ɫ12mpa").length = 8 ∧ (bytes (ToLower "Ɫ12mpa")).length = 7 ∧
    slice (bytes "Ɫ12mpa") 2 4 = some [162, 49] ∧
    (extractPressure "Ɫ12mpa" : Option (Float64 α)) = some (.finite 0.5) ∧
    (extractPressure "Ɫ7bar" : Option (Float64 α)) = some (.finite 0.5) := by
  have hi : Index (bytes (ToLower "Ɫ12mpa")) (bytes "mpa") = some 4 := by decide
  have hb : scanBack (bytes (ToLower "Ɫ12mpa")) 4 = 2 := by decide
  have hs : slice (bytes "Ɫ12mpa") 2 4 = some [162, 49] := by decide
  have hp : (ParseFloat [162, 49] : Option (Float64 α)) = none :=
    ParseFloat_of_readFloat_none _ (by decide)
  have hn : Index (bytes (ToLower "Ɫ12mpa")) (bytes "bar") = none := by decide
  have hm7 : Index (bytes (ToLower "Ɫ7bar")) (bytes "mpa") = none := by decide
  have hi7 : Index (bytes (ToLower "Ɫ7bar")) (bytes "bar") = some 3 := by decide
  have hb7 : scanBack (bytes (ToLower "Ɫ7bar")) 3 = 2 := by decide
  have hs7 : slice (bytes "Ɫ7bar") 2 3 = some [162] := by decide
  have hp7 : (ParseFloat [162] : Option (Float64 α)) = none :=
    ParseFloat_of_readFloat_none _ (by decide)
  refine ⟨by decide, by decide, by decide, hs, ?_, ?_⟩
  · simp [extractPressure, tokenAttempt, hi, hb, hs, hp, hn]
  · simp [extractPressure, tokenAttempt, hm7, hi7, hb7, hs7, hp7]

/-- C10, the code at the failing input. In the remark "ȺȺȺȺ-mpa" the token "bar" is
absent and the leftmost occurrence of "mpa" is preceded by the run "-", which does
not parse, so the claim asks for the default 0.5; but the lower-cased copy is 4
bytes longer than the remark, the slice bounds computed on it (12 and 13) exceed
the 12 bytes of the remark, and `extractPressure` panics.  In "İ+5-mpa" the run
before "mpa" is "5-", which does not parse either; the lower-cased copy is one
byte shorter, the slice taken from the remark is "+5", and 5 is returned. -/
theorem extractPressure_shifted_slice :
    (extractPressure "ȺȺȺȺ-mpa" : Option (Float64 ℚ)) = none ∧
    Index (bytes (ToLower "ȺȺȺȺ-mpa")) (bytes "bar") = none ∧
    Index (bytes (ToLower "ȺȺȺȺ-mpa")) (bytes "mpa") = some 13 ∧
    scanBack (bytes (ToLower "ȺȺȺȺ-mpa")) 13 = 12 ∧
    (bytes "ȺȺȺȺ-mpa").length = 12 ∧
    (ParseFloat (bytes "-") : Option (Float64 ℚ)) = none ∧
    (extractPressure "İ+5-mpa" : Option (Float64 ℚ)) = some (.finite 5) ∧
    (ParseFloat (bytes "5-") : Option (Float64 ℚ)) = none := by
  have h5 : (ParseFloat (bytes "+5") : Option (Float64 ℚ)) = some (.finite 5) := by
    have h := ParseFloat_of_readFloat (α := ℚ) (bytes "+5") (false, 5, false, 0) 5
      (by decide) (by norm_num [floatValue])
    simpa using h
  have hs : slice (bytes "İ+5-mpa") 2 4 = some (bytes "+5") := by decide
  have hi : Index (bytes (ToLower "İ+5-mpa")) (bytes "mpa") = some 4 := by decide
  have hb : scanBack (bytes (ToLower "İ+5-mpa")) 4 = 2 := by decide
  refine ⟨by decide, by decide, by decide, by decide, by decide,
    ParseFloat_of_readFloat_none _ (by decide), ?_,
    ParseFloat_of_readFloat_none _ (by decide)⟩
  simp only [extractPressure, tokenAttempt, hi, hb, hs, h5]
  rfl

/-! ## Claims C11, C12 and C18: the steam density correlation -/

/-- C11. In exact rational arithmetic `calculateSteamDensity p` is
`5.2353·p + 0.0816` for `p < 0.32`, `5.0221·p + 0.1517` for `0.32 ≤ p < 1.00` and
`4.9283·p + 0.2173` for `p ≥ 1.00`; `p = 0.2` gives 1.12866, `p = 0.5` gives
2.66275 and `p = 1.5` gives 7.60975, each within 1e-3 of the documented 1.1287,
2.6628 and 7.6098. -/
theorem calculateSteamDensity_piecewise (p : ℚ) :
    (p < 0.32 → calculateSteamDensity p = 5.2353 * p + 0.0816) ∧
    (0.32 ≤ p → p < 1.00 → calculateSteamDensity p = 5.0221 * p + 0.1517) ∧
    (1.00 ≤ p → calculateSteamDensity p = 4.9283 * p + 0.2173) ∧
    calculateSteamDensity (0.2 : ℚ) = 1.12866 ∧
    calculateSteamDensity (0.5 : ℚ) = 2.66275 ∧
    calculateSteamDensity (1.5 : ℚ) = 7.60975 ∧
    |calculateSteamDensity (0.2 : ℚ) - 1.1287| < 0.001 ∧
    |calculateSteamDensity (0.5 : ℚ) - 2.6628| < 0.001 ∧
    |calculateSteamDensity (1.5 : ℚ) - 7.6098| < 0.001 := by
  have e1 : calculateSteamDensity (0.2 : ℚ) = 1.12866 := by
    rw [calculateSteamDensity_low _ (by norm_num)]
    norm_num
  have e2 : calculateSteamDensity (0.5 : ℚ) = 2.66275 := by
    rw [calculateSteamDensity_mid _ (by norm_num) (by norm_num)]
    norm_num
  have e3 : calculateSteamDensity (1.5 : ℚ) = 7.60975 := by
    rw [calculateSteamDensity_high _ (by norm_num)]
    norm_num
  refine ⟨calculateSteamDensity_low p, calculateSteamDensity_mid p,
    calculateSteamDensity_high p, e1, e2, e3, ?_, ?_, ?_⟩
  · rw [e1, abs_lt]
    constructor <;> norm_num
  · rw [e2, abs_lt]
    constructor <;> norm_num
  · rw [e3, abs_lt]
    constructor <;> norm_num

/-- Witness of C11: the middle segment at `p = 0.5`. -/
theorem calculateSteamDensity_piecewise_witness :
    calculateSteamDensity (0.5 : ℚ) = 5.0221 * 0.5 + 0.1517 :=
  (calculateSteamDensity_piecewise 0.5).2.1 (by norm_num) (by norm_num)

/-- Counterexample to C12: at `p = 0.32` the first segment formula gives 1.756896
and the second, which the function uses there, 1.758772; at `p = 1.00` the second
gives 5.1738 and the third, which the function uses there, 5.1456. -/
theorem steam_segments_disagree_at_breakpoints :
    (5.2353 * 0.32 + 0.0816 : ℚ) = 1.756896 ∧
    (5.0221 * 0.32 + 0.1517 : ℚ) = 1.758772 ∧
    calculateSteamDensity (0.32 : ℚ) = 1.758772 ∧
    (5.2353 * 0.32 + 0.0816 : ℚ) ≠ 5.0221 * 0.32 + 0.1517 ∧
    (5.0221 * 1.00 + 0.1517 : ℚ) = 5.1738 ∧
    (4.9283 * 1.00 + 0.2173 : ℚ) = 5.1456 ∧
    calculateSteamDensity (1.00 : ℚ) = 5.1456 ∧
    (5.0221 * 1.00 + 0.1517 : ℚ) ≠ 4.9283 * 1.00 + 0.2173 := by
  refine ⟨by norm_num, by norm_num, ?_, by norm_num, by norm_num, by norm_num, ?_,
    by norm_num⟩
  · rw [calculateSteamDensity_mid _ (by norm_num) (by norm_num)]
    norm_num
  · rw [calculateSteamDensity_high _ (by norm_num)]
    norm_num

/-- C12, amended.  The steam density correlation has a jump at each breakpoint.
Below 0.32 the values stay under 1.756896, the value of the first formula at 0.32,
while the function takes there the value 1.758772 of the second formula: a jump
of 0.001876 upwards.  Below 1.00 the values approach 5.1738, the value of the
second formula at 1.00 (from 0.99 on they exceed 5.12), while the function takes
there the value 5.1456 of the third formula: a jump of 0.0282 downwards. -/
theorem calculateSteamDensity_jumps (p : ℚ) :
    (p < 0.32 → calculateSteamDensity p < 1.756896) ∧
    calculateSteamDensity (0.32 : ℚ) = 1.756896 + 0.001876 ∧
    (0.32 ≤ p → p < 1.00 →
      calculateSteamDensity p = 5.1738 - 5.0221 * (1.00 - p)) ∧
    (0.99 ≤ p → p < 1.00 → 5.12 < calculateSteamDensity p) ∧
    calculateSteamDensity (1.00 : ℚ) = 5.1738 - 0.0282 := by
  refine ⟨?_, ?_, ?_, ?_, ?_⟩
  · intro h
    rw [calculateSteamDensity_low p h]
    norm_num at h ⊢
    linarith
  · rw [calculateSteamDensity_mid _ (by norm_num) (by norm_num)]
    norm_num
  · intro h1 h2
    rw [calculateSteamDensity_mid p h1 h2]
    ring
  · intro h1 h2
    have h0 : (0.32 : ℚ) ≤ p := le_trans (by norm_num) h1
    rw [calculateSteamDensity_mid p h0 h2]
    norm_num at h1 ⊢
    linarith
  · rw [calculateSteamDensity_high _ (by norm_num)]
    norm_num

/-- Witness of C12 amended: just below 1.00, at 0.999, the density exceeds 5.12. -/
theorem calculateSteamDensity_jumps_witness :
    5.12 < calculateSteamDensity (0.999 : ℚ) :=
  (calculateSteamDensity_jumps 0.999).2.2.2.1 (by norm_num) (by norm_num)

/-- Counterexample to C18: `0.999 ≤ 1.00`, but the density at 0.999 is
5.1687779 and the density at 1.00 is 5.1456. -/
theorem calculateSteamDensity_drops_at_one :
    (0.999 : ℚ) ≤ 1.00 ∧
    calculateSteamDensity (0.999 : ℚ) = 5.1687779 ∧
    calculateSteamDensity (1.00 : ℚ) = 5.1456 ∧
    ¬ calculateSteamDensity (0.999 : ℚ) ≤ calculateSteamDensity (1.00 : ℚ) := by
  have e1 : calculateSteamDensity (0.999 : ℚ) = 5.1687779 := by
    rw [calculateSteamDensity_mid _ (by norm_num) (by norm_num)]
    norm_num
  have e2 : calculateSteamDensity (1.00 : ℚ) = 5.1456 := by
    rw [calculateSteamDensity_high _ (by norm_num)]
    norm_num
  refine ⟨by norm_num, e1, e2, ?_⟩
  rw [e1, e2]
  norm_num

/-- C18, amended.  `calculateSteamDensity` is monotonically non-decreasing on the
pressures below 1.00, across the breakpoint 0.32 included, and on the pressures
from 1.00 on: for `p1 ≤ p2` with `p2 < 1.00` or `1.00 ≤ p1` the density at `p1` is
at most the density at `p2`. -/
theorem calculateSteamDensity_mono (p1 p2 : ℚ) (h : p1 ≤ p2)
    (hside : p2 < 1.00 ∨ 1.00 ≤ p1) :
    calculateSteamDensity p1 ≤ calculateSteamDensity p2 := by
  rcases hside with h2 | h1
  · have hp1 : p1 < 1.00 := lt_of_le_of_lt h h2
    by_cases ha : p1 < 0.32
    · by_cases hb : p2 < 0.32
      · rw [calculateSteamDensity_low p1 ha, calculateSteamDensity_low p2 hb]
        linarith
      · rw [calculateSteamDensity_low p1 ha,
          calculateSteamDensity_mid p2 (not_lt.1 hb) h2]
        have hb2 := not_lt.1 hb
        norm_num at ha hb2 ⊢
        linarith
    · have ha2 := not_lt.1 ha
      rw [calculateSteamDensity_mid p1 ha2 hp1,
        calculateSteamDensity_mid p2 (le_trans ha2 h) h2]
      linarith
  · rw [calculateSteamDensity_high p1 h1, calculateSteamDensity_high p2 (le_trans h1 h)]
    linarith

/-- Witness of C18 amended: from 0.2 to 0.5, across the breakpoint 0.32. -/
theorem calculateSteamDensity_mono_witness :
    calculateSteamDensity (0.2 : ℚ) ≤ calculateSteamDensity (0.5 : ℚ) :=
  calculateSteamDensity_mono 0.2 0.5 (by norm_num) (Or.inl (by norm_num))

/-! ## Claims C13 and C14: approximate density and header detection -/

/-- C13. For every medium text `getApproximateDensity` returns the constant of
the first substring, in the order "水", "蒸汽", "空气", "氧气", "天然气", "氨", "硫酸",
that occurs in it (1000, 1, 1.2, 1.43, 0.7, 0.77, 1840) and 1000 when none occurs;
the value is one of these constants and positive, and a medium containing "水"
gets 1000 whatever else it contains. -/
theorem getApproximateDensity_first_match (medium : String) :
    (getApproximateDensity medium : α) =
        ((densityTable.find? (fun kv => Contains medium kv.1)).map (fun kv => kv.2)).getD 1000 ∧
      (getApproximateDensity medium : α) ∈
        ([1000, 1, 1.2, 1.43, 0.7, 0.77, 1840] : List α) ∧
      (0 : α) < getApproximateDensity medium ∧
      (Contains medium "水" = true → (getApproximateDensity medium : α) = 1000) := by
  refine ⟨?_, ?_, ?_, ?_⟩
  · simp only [getApproximateDensity, densityTable, List.find?]
    cases Contains medium "水" <;> cases Contains medium "蒸汽" <;>
      cases Contains medium "空气" <;> cases Contains medium "氧气" <;>
      cases Contains medium "天然气" <;> cases Contains medium "氨" <;>
      cases Contains medium "硫酸" <;> rfl
  · simp only [getApproximateDensity]
    split_ifs <;> simp
  · simp only [getApproximateDensity]
    split_ifs <;> norm_num
  · intro h
    simp only [getApproximateDensity, h, if_true]

/-- Witness of C13: "氨水" contains "水" and "氨" and gets 1000; "液氨" gets 0.77. -/
theorem getApproximateDensity_first_match_witness :
    (getApproximateDensity "氨水" : ℚ) = 1000 ∧ Contains "氨水" "氨" = true ∧
      (getApproximateDensity "液氨" : ℚ) = 0.77 := by
  refine ⟨(getApproximateDensity_first_match (α := ℚ) "氨水").2.2.2 (by decide), by decide, ?_⟩
  have h := (getApproximateDensity_first_match (α := ℚ) "液氨").1
  rw [h]
  have h1 : Contains "液氨" "水" = false := by decide
  have h2 : Contains "液氨" "蒸汽" = false := by decide
  have h3 : Contains "液氨" "空气" = false := by decide
  have h4 : Contains "液氨" "氧气" = false := by decide
  have h5 : Contains "液氨" "天然气" = false := by decide
  have h6 : Contains "液氨" "氨" = true := by decide
  simp [densityTable, List.find?, h1, h2, h3, h4, h5, h6]

/-- Counterexample to C14: the first rows `["管径(mm)", "介质"]` and `["Diameter"]`
have at least one cell and a first cell that contains "管径", respectively
"diameter" in another letter case, but processing starts at index 0. -/
theorem header_of_short_row_not_skipped :
    Contains "管径(mm)" "管径" = true ∧ isHeaderCell "管径(mm)" = true ∧
    startRow [["管径(mm)", "介质"], ["100", "自来水", "常温常压"]] = 0 ∧
    isHeaderCell "Diameter" = true ∧
    startRow [["Diameter"], ["100", "自来水", "常温常压"]] = 0 := by
  decide

/-- C14, amended.  For every non-empty list of rows, the index at which row
processing starts is 1 if the first row has at least 3 cells and its first cell
contains, after lower-casing, "管径" or "diameter"; it is 0 otherwise, in
particular whenever the first row has fewer than 3 cells. -/
theorem startRow_header (firstRow : List String) (rest : List (List String)) :
    (3 ≤ firstRow.length → isHeaderCell (firstRow.getD 0 "") = true →
      startRow (firstRow :: rest) = 1) ∧
    (isHeaderCell (firstRow.getD 0 "") = false → startRow (firstRow :: rest) = 0) ∧
    (firstRow.length < 3 → startRow (firstRow :: rest) = 0) := by
  refine ⟨?_, ?_, ?_⟩
  · intro h3 hh
    simp only [isHeaderCell, Bool.or_eq_true] at hh
    simp only [startRow]
    rw [if_pos ⟨h3, hh⟩]
  · intro hh
    simp only [isHeaderCell, Bool.or_eq_false_iff] at hh
    simp only [startRow]
    rw [if_neg]
    rintro ⟨_, h | h⟩
    · rw [hh.1] at h
      exact Bool.noConfusion h
    · rw [hh.2] at h
      exact Bool.noConfusion h
  · intro h3
    simp only [startRow]
    rw [if_neg]
    rintro ⟨h, _⟩
    omega

/-- Witness of C14 amended: a header row of 3 cells with "管径(mm)" is skipped,
and so is one with "Pipe Diameter". -/
theorem startRow_header_witness :
    startRow [["管径(mm)", "介质", "备注"], ["100", "自来水", "常温常压"]] = 1 ∧
    startRow [["Pipe Diameter", "Medium", "Remark"]] = 1 :=
  ⟨(startRow_header ["管径(mm)", "介质", "备注"] [["100", "自来水", "常温常压"]]).1
      (by decide) (by decide),
    (startRow_header ["Pipe Diameter", "Medium", "Remark"] []).1 (by decide) (by decide)⟩

/-! ## Claims C15, C16 and C20: the reference table and the fuzzy match -/

/-- C15. Every entry of `velocityDB` has `0 < min ≤ max`, so its midpoint lies
between `min` and `max`; for every medium text and every iteration order the
velocity returned by `getRecommendedVelocity` is strictly positive, the result
being that of a table entry or the default with velocity 1.5, and the category is
one of the table's categories or "未知". -/
theorem velocity_positive_category_known (order : List (String × VelocityEntry α))
    (medium : String) (hperm : order.Perm velocityDB) :
    (∀ kv ∈ velocityDB (α := α), 0 < kv.2.min ∧ kv.2.min ≤ kv.2.max ∧
      kv.2.min ≤ (kv.2.min + kv.2.max) / 2 ∧ (kv.2.min + kv.2.max) / 2 ≤ kv.2.max) ∧
    0 < (getRecommendedVelocity order medium).1 ∧
    ((∃ kv ∈ velocityDB (α := α),
        (getRecommendedVelocity order medium).1 = (kv.2.min + kv.2.max) / 2) ∨
      (getRecommendedVelocity order medium).1 = 1.5) ∧
    ((getRecommendedVelocity order medium).2.1 ∈
        (velocityDB (α := α)).map (fun kv => kv.2.category) ∨
      (getRecommendedVelocity order medium).2.1 = "未知") := by
  refine ⟨?_, ?_, ?_, ?_⟩
  · intro kv h
    have hb := velocityDB_bounds kv h
    refine ⟨hb.1, hb.2, ?_, ?_⟩
    · rw [le_div_iff₀ (by norm_num : (0 : α) < 2)]
      linarith [hb.2]
    · rw [div_le_iff₀ (by norm_num : (0 : α) < 2)]
      linarith [hb.2]
  · rcases getRecommendedVelocity_cases order medium hperm with ⟨kv, hkv, _, he⟩ | he
    · rw [he]
      exact positive_midpoint kv hkv
    · rw [he]
      norm_num
  · rcases getRecommendedVelocity_cases order medium hperm with ⟨kv, hkv, _, he⟩ | he
    · exact Or.inl ⟨kv, hkv, by rw [he]; rfl⟩
    · exact Or.inr (by rw [he])
  · rcases getRecommendedVelocity_cases order medium hperm with ⟨kv, hkv, _, he⟩ | he
    · left
      rw [he]
      exact List.mem_map.2 ⟨kv, hkv, rfl⟩
    · right
      rw [he]

/-- Witness of C15: the medium "水", which matches several keys, with the table
iterated in reverse order. -/
theorem velocity_positive_category_known_witness :
    0 < (getRecommendedVelocity (velocityDB (α := ℚ)).reverse "水").1 :=
  (velocity_positive_category_known (velocityDB (α := ℚ)).reverse "水"
    (List.reverse_perm _)).2.1

/-- C16. Fuzzy match: when the trimmed medium is no reference key and some key
matches it (the text contains the key or the key contains the text),
`getRecommendedVelocity` returns the (midpoint, category, recommendation) of a
matching key, not the default and not the entry of a non-matching key; when
exactly one key matches, the result is the entry of that key for every iteration
order. -/
theorem fuzzy_match_returns_matching_entry (order : List (String × VelocityEntry α))
    (medium : String) (hperm : order.Perm velocityDB)
    (hkey : TrimSpace medium ∉ velocityKeys)
    (hex : ∃ k ∈ velocityKeys, fuzzyMatch (TrimSpace medium) k = true) :
    (∃ kv ∈ velocityDB (α := α), fuzzyMatch (TrimSpace medium) kv.1 = true ∧
      getRecommendedVelocity order medium =
        ((kv.2.min + kv.2.max) / 2, kv.2.category, kv.2.recommendation)) ∧
    getRecommendedVelocity order medium ≠ (1.5, "未知", "请根据实际情况确定流速") ∧
    (∀ kv ∈ velocityDB (α := α), fuzzyMatch (TrimSpace medium) kv.1 = false →
      getRecommendedVelocity order medium ≠
        ((kv.2.min + kv.2.max) / 2, kv.2.category, kv.2.recommendation)) ∧
    (∀ kv ∈ velocityDB (α := α), fuzzyMatch (TrimSpace medium) kv.1 = true →
      (∀ k ∈ velocityKeys, fuzzyMatch (TrimSpace medium) k = true → k = kv.1) →
      getRecommendedVelocity order medium =
        ((kv.2.min + kv.2.max) / 2, kv.2.category, kv.2.recommendation)) := by
  have hfound : ∃ kv ∈ velocityDB (α := α), fuzzyMatch (TrimSpace medium) kv.1 = true ∧
      getRecommendedVelocity order medium = entryResult kv.2 := by
    rw [getRecommendedVelocity_fuzzy order medium hkey]
    cases hf : order.find? (fun kv => fuzzyMatch (TrimSpace medium) kv.1) with
    | some kv =>
      have hm := List.find?_some hf
      exact ⟨kv, hperm.subset (List.mem_of_find?_eq_some hf), hm, rfl⟩
    | none =>
      exfalso
      obtain ⟨k, hk, hmatch⟩ := hex
      rw [← map_fst_velocityDB (α := α)] at hk
      obtain ⟨kv, hkv, rfl⟩ := List.mem_map.1 hk
      rw [List.find?_eq_none] at hf
      exact hf kv (hperm.symm.subset hkv) hmatch
  obtain ⟨kv, hkv, hmatch, hres⟩ := hfound
  refine ⟨⟨kv, hkv, hmatch, hres⟩, ?_, ?_, ?_⟩
  · rw [hres]
    exact entryResult_ne_default kv hkv
  · intro kv2 hkv2 hno he
    rw [hres] at he
    have := entryResult_injective kv kv2 hkv hkv2 he
    rw [← this, hmatch] at hno
    exact Bool.noConfusion hno
  · intro kv2 hkv2 hm2 huniq
    have h1 : kv.1 = kv2.1 := huniq kv.1 (key_mem_of_mem kv hkv) hmatch
    have l1 := lookup_velocityDB_of_mem kv.1 kv.2 hkv
    have l2 := lookup_velocityDB_of_mem kv2.1 kv2.2 hkv2
    rw [h1, l2] at l1
    rw [hres, ← Option.some.inj l1]
    rfl

/-- Witness of C16: "低压饱和蒸汽" is no key and contains the single key "饱和蒸汽";
with the table iterated in reverse order the result is that key's entry, with the
midpoint (20 + 30) / 2 = 25. -/
theorem fuzzy_match_returns_matching_entry_witness :
    getRecommendedVelocity (velocityDB (α := ℚ)).reverse "低压饱和蒸汽" =
        ((20.0 + 30.0) / 2, "蒸汽系统", "避免冷凝水携带（≤25m/s）") ∧
      ((20.0 + 30.0) / 2 : ℚ) = 25 :=
  ⟨(fuzzy_match_returns_matching_entry (velocityDB (α := ℚ)).reverse "低压饱和蒸汽"
      (List.reverse_perm _) (by decide) ⟨"饱和蒸汽", by decide, by decide⟩).2.2.2
      ("饱和蒸汽", ⟨20.0, 30.0, "蒸汽系统", "避免冷凝水携带（≤25m/s）"⟩) (by simp [velocityDB])
      (by decide) (by decide),
    by norm_num⟩

/-- C20. For the empty medium text and every medium text of white space only,
the trimmed text is empty, which every reference key contains: for every
iteration order `getRecommendedVelocity` returns the (midpoint, category,
recommendation) of an entry of the table, the one visited first, and not the
default. -/
theorem blank_medium_gets_table_entry (order : List (String × VelocityEntry α))
    (medium : String) (hperm : order.Perm velocityDB)
    (hblank : ∀ c ∈ medium.data, isSpace c = true) :
    (∀ k ∈ velocityKeys, Contains k (TrimSpace medium) = true) ∧
    (∃ kv ∈ velocityDB (α := α), order.head? = some kv ∧
      getRecommendedVelocity order medium =
        ((kv.2.min + kv.2.max) / 2, kv.2.category, kv.2.recommendation)) ∧
    getRecommendedVelocity order medium ≠ (1.5, "未知", "请根据实际情况确定流速") := by
  have htrim : TrimSpace medium = "" := TrimSpace_of_all_space medium hblank
  have hkey : TrimSpace medium ∉ velocityKeys := by
    rw [htrim]
    decide
  have hhead : ∃ kv ∈ velocityDB (α := α), order.head? = some kv ∧
      getRecommendedVelocity order medium = entryResult kv.2 := by
    cases order with
    | nil =>
      have := hperm.length_eq
      simp [velocityDB] at this
    | cons kv rest =>
      refine ⟨kv, hperm.subset (List.mem_cons_self _ _), rfl, ?_⟩
      rw [getRecommendedVelocity_fuzzy _ medium hkey, htrim]
      simp only [List.find?, fuzzyMatch_empty]
  obtain ⟨kv, hkv, hh, hres⟩ := hhead
  refine ⟨?_, ⟨kv, hkv, hh, hres⟩, ?_⟩
  · intro k _
    rw [htrim]
    have hb : bytes "" = [] := rfl
    simp [Contains, hb, Index_nil]
  · rw [hres]
    exact entryResult_ne_default kv hkv

/-- Witness of C20: a medium of two blanks with the table iterated in source
order gets the entry of "自来水", the first key. -/
theorem blank_medium_gets_table_entry_witness :
    getRecommendedVelocity (velocityDB (α := ℚ)) "  " ≠
      (1.5, "未知", "请根据实际情况确定流速") :=
  (blank_medium_gets_table_entry (velocityDB (α := ℚ)) "  " (List.Perm.refl _)
    (by decide)).2.2

/-! ## Claims C17 and C19: totality of the remark parser and signs of the flows -/

/-- C17, the code at the failing input.  The remark "ȺȺȺȺ1mpa" has 12 bytes and
its lower-cased copy 16 (each 2-byte Ⱥ becomes the 3-byte ⱥ); on the copy "mpa" is
found at index 13 and the backward scan stops at 12, and the slice `remarks[12:13]`
of the 12-byte remark is out of range: `extractPressure` panics instead of
returning a value. -/
theorem extractPressure_panics_on_longer_lowercase :
    (bytes "ȺȺȺȺ1mpa").length = 12 ∧
    (bytes (ToLower "ȺȺȺȺ1mpa")).length = 16 ∧
    Index (bytes (ToLower "ȺȺȺȺ1mpa")) (bytes "mpa") = some 13 ∧
    scanBack (bytes (ToLower "ȺȺȺȺ1mpa")) 13 = 12 ∧
    slice (bytes "ȺȺȺȺ1mpa") 12 13 = none ∧
    (extractPressure "ȺȺȺȺ1mpa" : Option (Float64 ℚ)) = none := by
  decide

/-- Counterexample to C19: the row `["100", "饱和蒸汽", "-5mpa"]`, over the reals
with `math.Pi = π`, yields a record with pressure -5, steam density
`5.2353·(-5) + 0.0816 = -26.0949` and a negative mass flow. -/
theorem negative_pressure_negative_mass_flow :
    ∃ r, processRow Real.pi velocityDB ["100", "饱和蒸汽", "-5mpa"] = .emitted r ∧
      r.pressure = -5 ∧ calculateSteamDensity r.pressure = -26.0949 ∧
      0 < r.volumeFlowRate ∧ r.massFlowRate < 0 := by
  have hp5 : (ParseFloat (bytes "-5") : Option (Float64 ℝ)) = some (.finite (-5)) := by
    have h := ParseFloat_of_readFloat (α := ℝ) (bytes "-5") (true, 5, false, 0) (-5)
      (by decide) (by norm_num [floatValue])
    simpa using h
  have ht : TrimSpace "-5mpa" = "-5mpa" := by decide
  have hrun : (tokenAttempt (bytes "-5mpa") (bytes (ToLower "-5mpa")) (bytes "mpa") :
      Attempt ℝ) = .parsed (.finite (-5)) := by
    rw [tokenAttempt_of_run "mpa" "-5mpa" "" "-5"
      ⟨⟨"mpa", by decide⟩, by decide, by decide, by decide, by decide, by decide⟩, hp5]
  have hp : (extractPressure (TrimSpace "-5mpa") : Option (Float64 ℝ)) =
      some (.finite (-5)) := by
    rw [ht]
    simp only [extractPressure, hrun]
  have hsteam : Contains (TrimSpace "饱和蒸汽") "蒸汽" = true := by decide
  have hdens : calculateSteamDensity (-5 : ℝ) = -26.0949 := by
    rw [calculateSteamDensity_low _ (by norm_num)]
    norm_num
  have hv := getRecommendedVelocity_pos (velocityDB (α := ℝ)) (TrimSpace "饱和蒸汽")
    (List.Perm.refl _)
  have hvol : 0 < calculateVolumeFlowRate Real.pi 100
      (getRecommendedVelocity (velocityDB (α := ℝ)) (TrimSpace "饱和蒸汽")).1 := by
    rw [calculateVolumeFlowRate_eq]
    have := Real.pi_pos
    positivity
  refine ⟨_, processRow_emitted Real.pi velocityDB "100" "饱和蒸汽" "-5mpa" [] 100 (-5)
    parseFloat_100 hp, rfl, hdens, hvol, ?_⟩
  simp only [hsteam, if_true, hdens]
  have hneg : calculateVolumeFlowRate Real.pi 100
      (getRecommendedVelocity (velocityDB (α := ℝ)) (TrimSpace "饱和蒸汽")).1 * (-26.0949) < 0 :=
    mul_neg_of_pos_of_neg hvol (by norm_num)
  exact div_neg_of_neg_of_pos hneg (by norm_num)

/-- In the remark "İİİnan123mpa" (the capital dotted I, U+0130, has 2 bytes and its
lower case `i` one) the bounds 6 and 9 of the run "123" on the lower-cased copy
cut the bytes "nan" out of the remark: the pressure extracted is NaN, and the row
is written with it. -/
theorem extractPressure_nan_pressure (pi : α) (order : List (String × VelocityEntry α)) :
    slice (bytes "İİİnan123mpa") 6 9 = some (bytes "nan") ∧
    (extractPressure "İİİnan123mpa" : Option (Float64 α)) = some (.nonFinite .nan) ∧
    processRow pi order ["100", "饱和蒸汽", "İİİnan123mpa"] =
      .emittedNonFinite (.finite 100) (.nonFinite .nan) := by
  have hi : Index (bytes (ToLower "İİİnan123mpa")) (bytes "mpa") = some 9 := by decide
  have hb : scanBack (bytes (ToLower "İİİnan123mpa")) 9 = 6 := by decide
  have hs : slice (bytes "İİİnan123mpa") 6 9 = some (bytes "nan") := by decide
  have hn : (ParseFloat (bytes "nan") : Option (Float64 α)) = some (.nonFinite .nan) := by
    have h1 : special (bytes "nan") = some (NonFinite.nan, 3) := by decide
    have h2 : (bytes "nan").length = 3 := by decide
    simp only [ParseFloat, h1, h2, if_true]
  have hp : (extractPressure "İİİnan123mpa" : Option (Float64 α)) =
      some (.nonFinite .nan) := by
    simp only [extractPressure, tokenAttempt, hi, hb, hs, hn]
    rfl
  have ht : TrimSpace "İİİnan123mpa" = "İİİnan123mpa" := by decide
  refine ⟨hs, hp, ?_⟩
  simp only [processRow, parseFloat_100, ht, hp]

/-- C19, amended.  For every diameter text that parses as a finite number `d`,
every medium text and every remark text on which `extractPressure` returns a finite
pressure `p`, the row processor emits a record, with diameter `d` and pressure `p`,
that has, in exact arithmetic, `volumeFlowRate ≥ 0`.  Its `massFlowRate` is `≥ 0`
when the medium does not contain "蒸汽", and when the pressure is at least
`-0.0816/5.2353` (about -0.0156), in particular for every pressure `≥ 0`; for a
medium containing "蒸汽" with a lower pressure the steam density is negative and
`massFlowRate ≤ 0`. -/
theorem emitted_flow_signs (pi : α) (order : List (String × VelocityEntry α))
    (c0 c1 c2 : String) (more : List String) (d p : α) (hpi : 0 ≤ pi)
    (hperm : order.Perm velocityDB)
    (hd : parseFloat (TrimSpace c0) = some (.finite d))
    (hp : extractPressure (TrimSpace c2) = some (.finite p)) :
    ∃ r, processRow pi order (c0 :: c1 :: c2 :: more) = .emitted r ∧
      r.pipeDiameter = d ∧ r.pressure = p ∧ r.medium = TrimSpace c1 ∧
      0 ≤ r.volumeFlowRate ∧
      (Contains r.medium "蒸汽" = false → 0 ≤ r.massFlowRate) ∧
      (-(0.0816 / 5.2353) ≤ p → 0 ≤ r.massFlowRate) ∧
      (Contains r.medium "蒸汽" = true → p < -(0.0816 / 5.2353) → r.massFlowRate ≤ 0) := by
  refine ⟨_, processRow_emitted pi order c0 c1 c2 more d p hd hp, rfl, rfl, rfl, ?_⟩
  have hv : 0 ≤ (getRecommendedVelocity order (TrimSpace c1)).1 :=
    le_of_lt (getRecommendedVelocity_pos order _ hperm)
  have hvolume : 0 ≤ calculateVolumeFlowRate pi d
      (getRecommendedVelocity order (TrimSpace c1)).1 :=
    calculateVolumeFlowRate_nonneg pi d _ hpi hv
  have hk : (0 : α) < 1000 := by norm_num
  refine ⟨hvolume, ?_, ?_, ?_⟩
  · intro hs
    simp only at hs
    simp only [hs, Bool.false_eq_true, if_false]
    exact div_nonneg (mul_nonneg hvolume (le_of_lt (getApproximateDensity_pos _)))
      (le_of_lt hk)
  · intro hpr
    have hden : 0 ≤ calculateSteamDensity p := (calculateSteamDensity_nonneg_iff p).2 hpr
    simp only
    split_ifs
    · exact div_nonneg (mul_nonneg hvolume hden) (le_of_lt hk)
    · exact div_nonneg (mul_nonneg hvolume (le_of_lt (getApproximateDensity_pos _)))
        (le_of_lt hk)
  · intro hs hpr
    simp only at hs
    simp only [hs, if_true]
    have hden : calculateSteamDensity p ≤ 0 := by
      by_contra hc
      have := (calculateSteamDensity_nonneg_iff p).1 (le_of_lt (not_le.1 hc))
      exact absurd hpr (not_lt.2 this)
    exact div_nonpos_of_nonpos_of_nonneg (mul_nonpos_of_nonneg_of_nonpos hvolume hden)
      (le_of_lt hk)

/-- Witness of C19 amended: the row `["100", "自来水", "常温常压"]`, with 22/7 for
`math.Pi`, has the finite diameter 100 and the finite pressure 0.5; its record has
flows `≥ 0`. -/
theorem emitted_flow_signs_witness :
    (parseFloat (TrimSpace "100") : Option (Float64 ℚ)) = some (.finite 100) ∧
    (extractPressure (TrimSpace "常温常压") : Option (Float64 ℚ)) = some (.finite 0.5) ∧
    ∃ r, processRow (22 / 7 : ℚ) velocityDB ["100", "自来水", "常温常压"] = .emitted r ∧
      r.pipeDiameter = 100 ∧ r.pressure = 0.5 ∧ r.medium = TrimSpace "自来水" ∧
      0 ≤ r.volumeFlowRate ∧
      (Contains r.medium "蒸汽" = false → 0 ≤ r.massFlowRate) ∧
      (-(0.0816 / 5.2353) ≤ (0.5 : ℚ) → 0 ≤ r.massFlowRate) ∧
      (Contains r.medium "蒸汽" = true → (0.5 : ℚ) < -(0.0816 / 5.2353) →
        r.massFlowRate ≤ 0) :=
  ⟨parseFloat_100, extractPressure_of_absent _ (by decide) (by decide),
    emitted_flow_signs (22 / 7 : ℚ) velocityDB "100" "自来水" "常温常压" [] 100 0.5
      (by norm_num) (List.Perm.refl _) parseFloat_100
      (extractPressure_of_absent _ (by decide) (by decide))⟩
end PipeFlow
